import Mathlib

/-!
Verification development for the anvil composition and rendering engine
(crates/anvil-engine).  The Rust sources `composition.rs`, `engine.rs` and
`config.rs` are shallowly embedded below as executable Lean definitions:

* filesystem state is a value (`FSModel`): template/service manifests that
  parse successfully are `some`, directory trees are `DirTree` values
  listing entries in `read_dir` encounter order;
* `HashMap`s are modelled as association lists with replace-or-append
  insertion; lookups agree with the Rust maps, only iteration order differs
  and is never relied upon except where noted;
* the per-call iteration order of the conflict-resolution `HashMap` in
  `resolve_file_conflicts` is a genuine source of run-to-run nondeterminism
  in the Rust code (per-instance `RandomState`), so it is made explicit as
  an `order` argument to `composeTemplate`;
* external library boundaries (serde_json parsing/serialisation, the Tera
  renderer) are passed in as function arguments.

Rust `String`s are Lean `String`s; all string manipulation helpers used by
the source (`trim`, `split`, `contains`, `trim_matches`, ...) are
re-implemented over `List Char` so that everything reduces in the kernel.
-/

namespace Anvil

/-- The single-quote character, written via its code point. -/
def squote : Char := Char.ofNat 39

/-- The double-quote character, written via its code point. -/
def dquote : Char := Char.ofNat 34

/-- ASCII whitespace predicate used to model Rust `str::trim` (the templates
and conditions in this code base are ASCII). -/
def isSpaceChar (c : Char) : Bool :=
  c == ' ' || c == Char.ofNat 9 || c == Char.ofNat 10 || c == Char.ofNat 13

/-- Model of Rust `str::trim`: drop whitespace from both ends. -/
def trimStr (s : String) : String :=
  String.mk (((s.toList.dropWhile isSpaceChar).reverse.dropWhile isSpaceChar).reverse)

/-- Model of Rust `str::trim_matches(c)`: repeatedly strip `c` from both ends. -/
def trimMatchesChar (s : String) (c : Char) : String :=
  String.mk (((s.toList.dropWhile (· == c)).reverse.dropWhile (· == c)).reverse)

/-- Does `pat` occur (as a contiguous run) somewhere in `l`? -/
def infixAux (pat : List Char) : List Char → Bool
  | [] => pat.isEmpty
  | c :: rest => pat.isPrefixOf (c :: rest) || infixAux pat rest

/-- Substring containment on char lists (Rust `str::contains`). -/
def containsSub (s pat : String) : Bool :=
  infixAux pat.toList s.toList

/-- Worker for `splitSub`, with fuel (the fuel is always sufficient because
every step consumes at least one character). -/
def splitSubGo (pat : List Char) : Nat → List Char → List Char → List (List Char)
  | 0, l, acc => [acc.reverse ++ l]
  | _ + 1, [], acc => [acc.reverse]
  | n + 1, c :: rest, acc =>
    if pat.isPrefixOf (c :: rest) then
      acc.reverse :: splitSubGo pat n ((c :: rest).drop pat.length) []
    else
      splitSubGo pat n rest (c :: acc)

/-- Model of Rust `str::split(pat)` for a nonempty string pattern: the parts
between non-overlapping left-to-right occurrences of `pat`. -/
def splitSub (s pat : String) : List String :=
  (splitSubGo pat.toList (s.toList.length + 1) s.toList []).map String.mk

/-- Model of Rust `str::starts_with`. -/
def startsWithStr (s pat : String) : Bool :=
  pat.toList.isPrefixOf s.toList

/-- Model of Rust `str::strip_prefix(pat).unwrap()` under a `starts_with`
guard: drop the pattern's length from the front. -/
def dropPrefixStr (s pat : String) : String :=
  String.mk (s.toList.drop pat.toList.length)

/-- Index of the first occurrence of `c`, if any. -/
def firstIdxOf (c : Char) : List Char → Option Nat
  | [] => none
  | x :: rest => if x == c then some 0 else (firstIdxOf c rest).map (· + 1)

/-- Index of the last occurrence of `c`, if any (Rust `str::rfind`). -/
def lastIdxOf (c : Char) (l : List Char) : Option Nat :=
  (firstIdxOf c l.reverse).map (fun i => l.length - 1 - i)

/-! ## JSON model

`serde_json::Value` is embedded as `JValue`; `serde_json::Map` (a map from
`String` to `Value`) is an association list whose `insertKey` replaces the
binding of an existing key in place (so lookups agree with the Rust map;
the Rust `BTreeMap` additionally keeps keys sorted, which only affects
serialisation order, never lookups). -/

/-- Embedded `serde_json::Value`.  Numbers are modelled as integers: the only
numbers the composition engine itself constructs are selection counts. -/
inductive JValue where
  | null : JValue
  | bool (b : Bool) : JValue
  | num (n : Int) : JValue
  | str (s : String) : JValue
  | arr (elems : List JValue) : JValue
  | obj (fields : List (String × JValue)) : JValue

/-- `Value::is_object`. -/
def JValue.isObj : JValue → Bool
  | .obj _ => true
  | _ => false

/-- `Value::as_object().unwrap()`, with `[]` for non-objects (only used under
an `isObj` guard, mirroring the Rust `unwrap`). -/
def JValue.objFields : JValue → List (String × JValue)
  | .obj fields => fields
  | _ => []

/-- First-match lookup in an association list (agrees with map lookup). -/
def lookupKey (m : List (String × JValue)) (k : String) : Option JValue :=
  match m with
  | [] => none
  | (k', v) :: rest => if k' == k then some v else lookupKey rest k

/-- Map insertion: replace the binding of `k` in place, or append. -/
def insertKey (m : List (String × JValue)) (k : String) (v : JValue) :
    List (String × JValue) :=
  match m with
  | [] => [(k, v)]
  | (k', v') :: rest =>
    if k' == k then (k, v) :: rest else (k', v') :: insertKey rest k v

/-- `BTreeMap::extend`: insert every binding of `m2` into `m1`, later keys
winning on collision. -/
def extendObj (m1 m2 : List (String × JValue)) : List (String × JValue) :=
  m2.foldl (fun acc kv => insertKey acc kv.1 kv.2) m1

/-! ## Manifest data model (`config.rs`)

Fields that the composition and rendering code paths never read
(`variables`, `features`, `hooks`, `service_combinations`, the service
manifest's `files`/`configuration_prompts`/`compatibility_rules`) are
omitted from the embedded records; everything the embedded functions touch
is present. -/

/-- `ServiceCategory` (`config.rs`). -/
inductive ServiceCategory where
  | auth | payments | database | ai | api | deployment | monitoring | email | storage
deriving DecidableEq

/-- `format!("{:?}", category)`: the Rust `Debug` rendering of a category. -/
def categoryDebug : ServiceCategory → String
  | .auth => "Auth"
  | .payments => "Payments"
  | .database => "Database"
  | .ai => "AI"
  | .api => "Api"
  | .deployment => "Deployment"
  | .monitoring => "Monitoring"
  | .email => "Email"
  | .storage => "Storage"

/-- `format!("{:?}", category).to_lowercase()`: the lower-cased category key
used for directory names and context keys throughout `composition.rs`. -/
def categoryKey : ServiceCategory → String
  | .auth => "auth"
  | .payments => "payments"
  | .database => "database"
  | .ai => "ai"
  | .api => "api"
  | .deployment => "deployment"
  | .monitoring => "monitoring"
  | .email => "email"
  | .storage => "storage"

/-- `EnvironmentVariable` (`config.rs`). -/
structure EnvironmentVariable where
  name : String
  description : String
  required : Bool
  default : Option String
deriving DecidableEq

/-- `ServiceDependencies` (`config.rs`); `cargo` is a `HashMap` modelled as
an association list. -/
structure ServiceDependencies where
  npm : Option (List String) := none
  cargo : Option (List (String × String)) := none
  go : Option (List String) := none
  python : Option (List String) := none
deriving DecidableEq

/-- `ServiceConfig` (`config.rs`): a provider manifest that parsed
successfully. -/
structure ServiceConfig where
  name : String
  description : String := ""
  version : String := ""
  category : String := ""
  dependencies : Option ServiceDependencies := none
  environmentVariables : List EnvironmentVariable := []
  languageRequirements : Option (List String) := none
deriving DecidableEq

/-- `ServiceDefinition` (`config.rs`). -/
structure ServiceDefinition where
  name : String
  category : ServiceCategory
  prompt : String := ""
  options : List String
  required : Bool := false
  default : Option String := none
  dependencies : Option (List String) := none
  conflicts : Option (List String) := none
  languageRequirements : Option (List String) := none
  platformRequirements : Option (List String) := none
deriving DecidableEq

/-- `FileMergingStrategy` (`config.rs`). -/
inductive FileMergingStrategy where
  | append | merge | override | skip
deriving DecidableEq

/-- `FileMergingStrategy::default()` is `Merge` (`config.rs`). -/
def FileMergingStrategy.defaultStrategy : FileMergingStrategy := .merge

/-- `DependencyResolution` (`config.rs`); informational only. -/
inductive DependencyResolution where
  | auto | manual | strict
deriving DecidableEq

/-- `ConditionalFile` (`config.rs`). -/
structure ConditionalFile where
  path : String
  condition : String
  sourceService : Option String := none
deriving DecidableEq

/-- `CompositionConfig` (`config.rs`). -/
structure CompositionConfig where
  fileMergingStrategy : FileMergingStrategy := .merge
  dependencyResolution : DependencyResolution := .auto
  conditionalFiles : List ConditionalFile := []
deriving DecidableEq

/-- `TemplateConfig` (`config.rs`), restricted to the fields the composition
and rendering pipeline reads. -/
structure TemplateConfig where
  name : String
  description : String := ""
  version : String := ""
  minAnvilVersion : String := "0.1.0"
  services : List ServiceDefinition := []
  composition : Option CompositionConfig := none
deriving DecidableEq

/-! ## Composition data model (`composition.rs`) -/

/-- A relative path, as its components (Rust `PathBuf`s inside the engine
are always relative paths built from components; equality is
component-wise). -/
abbrev RelPath := List String

/-- `PathBuf::from(s)` for the relative path strings appearing in
`conditional_files` rules: split on the path separator. -/
def parseRelPath (s : String) : RelPath :=
  (splitSub s "/").filter (fun seg => seg ≠ "")

/-- `ServiceSelection` (`composition.rs`). -/
structure ServiceSelection where
  category : ServiceCategory
  provider : String
  config : List (String × JValue) := []

/-- `FileSource` (`composition.rs`). -/
inductive FileSource where
  | baseTemplate : FileSource
  | service (category : ServiceCategory) (provider : String) : FileSource
  | merged : FileSource
deriving DecidableEq

/-- `ComposedFile` (`composition.rs`). -/
structure ComposedFile where
  path : RelPath
  content : String
  source : FileSource
  mergeStrategy : FileMergingStrategy
  isTemplate : Bool
deriving DecidableEq

/-- `ServiceInfo` (`composition.rs`). -/
structure ServiceInfo where
  provider : String
  config : List (String × JValue)
  exports : List (String × JValue)

/-- `ServiceContext` (`composition.rs`); both `HashMap`s are association
lists. -/
structure ServiceContext where
  services : List (String × ServiceInfo)
  sharedConfig : List (String × JValue)

/-- `ComposedTemplate` (`composition.rs`). -/
structure ComposedTemplate where
  baseConfig : TemplateConfig
  files : List ComposedFile
  mergedDependencies : List (String × JValue)
  environmentVariables : List (String × String)
  serviceContext : ServiceContext

/-- The error cases of `EngineError` reachable from the embedded code
(message strings carry the same identifying data as the Rust `format!`
calls, without the decorative quoting). -/
inductive EngError where
  | fileError (path : String) : EngError
  | compositionError (msg : String) : EngError
  | processingError (msg : String) : EngError
deriving DecidableEq

/-! ## Filesystem model

A directory tree is a list of entries in `read_dir` encounter order; the
tree content of a file that exists is its UTF-8 text (the engine reads
every file with `read_to_string`). -/

/-- A directory's entry list in `read_dir` encounter order, with the list
structure inlined into the inductive (so that the tree walk below is a
plain structural recursion): `leaf` ends the list, `file name content rest`
is a file entry followed by its remaining siblings, and
`dir name sub rest` is a subdirectory entry (with its own entry list
`sub`) followed by its remaining siblings. -/
inductive DirTree where
  | leaf : DirTree
  | file (name : String) (content : String) (rest : DirTree) : DirTree
  | dir (name : String) (sub : DirTree) (rest : DirTree) : DirTree

/-- One entry of a service-category directory as seen by
`discover_service_providers`: its name, whether it is a directory, and
whether it contains an `anvil.yaml`. -/
structure ProviderEntry where
  name : String
  isDir : Bool
  hasConfig : Bool
deriving DecidableEq

/-- The filesystem state one `CompositionEngine` sees.  `templateConfig`
is `some` exactly when `<templates>/<name>/anvil.yaml` exists, parses and
validates (`TemplateConfig::from_file`); `serviceConfig` likewise for
`<shared>/<category>/<provider>/anvil.yaml` (`ServiceConfig::from_file`);
`serviceExists` is the `service_path.exists()` check; the `*Tree` fields
are the directory trees walked by `collect_files_recursive`; and
`categoryListing` is the `read_dir` listing of `<shared>/<category>`
(`none` when that directory does not exist). -/
structure FSModel where
  templateConfig : String → Option TemplateConfig
  templateTree : String → DirTree
  serviceExists : ServiceCategory → String → Bool
  serviceConfig : ServiceCategory → String → Option ServiceConfig
  serviceTree : ServiceCategory → String → DirTree
  categoryListing : ServiceCategory → Option (List ProviderEntry)

/-! ## Service discovery (`discover_service_providers`) -/

/-- Byte-lexicographic `le` on char lists (UTF-8 byte order and code-point
order coincide, so this is Rust's `String` ordering). -/
def lexLeChars : List Char → List Char → Bool
  | [], _ => true
  | _ :: _, [] => false
  | a :: as, b :: bs =>
    if a == b then lexLeChars as bs else decide (a < b)

/-- Rust's `String` ordering as a `le`. -/
def lexLe (a b : String) : Prop :=
  lexLeChars a.toList b.toList = true

instance : DecidableRel lexLe := fun a b =>
  instDecidableEqBool (lexLeChars a.toList b.toList) true

/-- Rust `Vec::sort` on strings: a stable sort by the lexicographic
order. -/
def sortStrings (l : List String) : List String :=
  l.insertionSort lexLe

/-- `discover_service_providers` (`composition.rs` lines 82-111) as a
function of the category directory listing: missing directory means
`["none"]`; otherwise start from `["none"]`, push every subdirectory that
contains an `anvil.yaml`, and sort the whole vector. -/
def discoverServiceProviders (listing : Option (List ProviderEntry)) : List String :=
  match listing with
  | none => ["none"]
  | some entries =>
    sortStrings ("none" :: (entries.filter (fun e => e.isDir && e.hasConfig)).map (·.name))

/-- `discover_service_providers` applied to the engine's filesystem. -/
def discoverProvidersFS (fs : FSModel) (category : ServiceCategory) : List String :=
  discoverServiceProviders (fs.categoryListing category)

/-! ## Selection validation (`validate_service_selections`)

The Rust function is a sequence of passes, each returning the first error
it finds; the embedding gives each pass its own `Option EngError` function
and chains them with `<|>`, which reproduces the early-return control
flow exactly. -/

/-- Pass 1 (`composition.rs` lines 197-207): every `required` service
definition must have a selection of its category. -/
def requiredServiceError (cfg : TemplateConfig) (sels : List ServiceSelection) :
    Option EngError :=
  (cfg.services.find? fun d =>
      d.required && !(sels.any fun s => s.category == d.category)).map
    fun d => .compositionError ("Required service " ++ d.name ++ " not provided")

/-- Pass 2 (`composition.rs` lines 210-238), per selection: the category
must be declared by the template, the provider must be among the declared
options, and the provider's file directory must exist. -/
def selectionError (fs : FSModel) (cfg : TemplateConfig) (s : ServiceSelection) :
    Option EngError :=
  match cfg.services.find? (fun d => d.category == s.category) with
  | none =>
    some (.compositionError
      ("Service category " ++ categoryDebug s.category ++ " not supported by template " ++ cfg.name))
  | some d =>
    if !(d.options.contains s.provider) then
      some (.compositionError
        ("Invalid provider " ++ s.provider ++ " for service " ++ categoryDebug s.category))
    else if !(fs.serviceExists s.category s.provider) then
      some (.compositionError
        ("Service files not found for " ++ categoryDebug s.category ++ "/" ++ s.provider))
    else none

/-- Pass 3 (`composition.rs` lines 240-254): for each selection's
definition, error on the first `conflicts` entry that names the lower-cased
category of ANY selection — the scan does not exclude the selection
itself. -/
def conflictError (cfg : TemplateConfig) (sels : List ServiceSelection) :
    Option EngError :=
  sels.findSome? fun sel =>
    match cfg.services.find? (fun d => d.category == sel.category) with
    | none => none
    | some d =>
      match d.conflicts with
      | none => none
      | some cs =>
        (cs.find? fun c => sels.any fun s => categoryKey s.category == c).map
          fun c => .compositionError ("Service conflict: " ++ d.name ++ " conflicts with " ++ c)

/-- Pass 4 (`composition.rs` lines 257-274): every `dependencies` entry of a
selection's definition must name the lower-cased category of some
selection. -/
def dependencyError (cfg : TemplateConfig) (sels : List ServiceSelection) :
    Option EngError :=
  sels.findSome? fun sel =>
    match cfg.services.find? (fun d => d.category == sel.category) with
    | none => none
    | some d =>
      match d.dependencies with
      | none => none
      | some ds =>
        (ds.find? fun dep => !(sels.any fun s => categoryKey s.category == dep)).map
          fun dep => .compositionError
            ("Service " ++ d.name ++ " requires dependency " ++ dep ++ " which is not selected")

/-- `detect_project_language` (`composition.rs` lines 333-353): a heuristic
on the template name, defaulting to TypeScript/JavaScript. -/
def detectProjectLanguage (cfg : TemplateConfig) : List String :=
  if containsSub cfg.name "rust" then ["rust"]
  else if containsSub cfg.name "go" then ["go"]
  else if containsSub cfg.name "python" then ["python"]
  else ["typescript", "javascript"]

/-- `get_service_language_requirements` (`composition.rs` lines 358-371):
hard-coded rules keyed on the provider manifest's name. -/
def serviceLanguageRequirements (sc : ServiceConfig) : Option (List String) :=
  if sc.name == "trpc-api" then some ["typescript"] else none

/-- `validate_service_rules` (`composition.rs` lines 376-398): the only
implemented rule rejects `trpc-api` without TypeScript. -/
def serviceRulesError (sc : ServiceConfig) (langs : List String) : Option EngError :=
  if sc.name == "trpc-api" && !(langs.contains "typescript") then
    some (.compositionError "tRPC requires TypeScript for type safety")
  else none

/-- `validate_cross_service_compatibility` (`composition.rs` lines 403-450):
at most one auth provider and at most one API pattern. -/
def crossServiceError (sels : List ServiceSelection) : Option EngError :=
  let authProviders := (sels.filter (fun s => s.category == ServiceCategory.auth)).map (·.provider)
  let apiProviders := (sels.filter (fun s => s.category == ServiceCategory.api)).map (·.provider)
  if authProviders.length > 1 then
    some (.compositionError
      ("Multiple auth providers selected: " ++ String.intercalate ", " authProviders))
  else if apiProviders.length > 1 then
    some (.compositionError
      ("Multiple API patterns selected: " ++ String.intercalate ", " apiProviders))
  else none

/-- `validate_service_compatibility` (`composition.rs` lines 286-328): per
selection whose manifest exists, check the hard-coded language requirements
and service rules, then the cross-service rules. -/
def compatibilityError (fs : FSModel) (cfg : TemplateConfig) (sels : List ServiceSelection) :
    Option EngError :=
  let langs := detectProjectLanguage cfg
  (sels.findSome? fun s =>
    match fs.serviceConfig s.category s.provider with
    | none => none
    | some sc =>
      (match serviceLanguageRequirements sc with
       | some reqs =>
         (reqs.find? fun r => !(langs.contains r)).map fun r =>
           .compositionError
             ("Service " ++ categoryKey s.category ++ "/" ++ s.provider ++ " requires " ++ r)
       | none => none)
      <|> serviceRulesError sc langs)
  <|> crossServiceError sels

/-- The first error produced by the validation passes, in source order. -/
def validationError (fs : FSModel) (cfg : TemplateConfig) (sels : List ServiceSelection) :
    Option EngError :=
  requiredServiceError cfg sels
  <|> sels.findSome? (selectionError fs cfg)
  <|> conflictError cfg sels
  <|> dependencyError cfg sels
  <|> compatibilityError fs cfg sels

/-- `validate_service_selections` (`composition.rs` lines 192-280). -/
def validateServiceSelections (fs : FSModel) (cfg : TemplateConfig)
    (sels : List ServiceSelection) : Except EngError Unit :=
  match validationError fs cfg sels with
  | some e => .error e
  | none => .ok ()

/-! ## Service context (`build_service_context`) -/

/-- Replace-or-append insertion for string-keyed association lists of any
value type (the `HashMap::insert` of `composition.rs`). -/
def assocInsert {β : Type} (m : List (String × β)) (k : String) (v : β) :
    List (String × β) :=
  match m with
  | [] => [(k, v)]
  | (k', v') :: rest =>
    if k' == k then (k, v) :: rest else (k', v') :: assocInsert rest k v

/-- First-match lookup for string-keyed association lists. -/
def assocLookup {β : Type} (m : List (String × β)) (k : String) : Option β :=
  match m with
  | [] => none
  | (k', v) :: rest => if k' == k then some v else assocLookup rest k

/-- The category-specific exports of `build_service_context`
(`composition.rs` lines 480-518), folded over an exports map. -/
def categoryExports (s : ServiceSelection) (sc : ServiceConfig)
    (exports : List (String × JValue)) : List (String × JValue) :=
  match s.category with
  | .auth =>
    let e := insertKey (insertKey exports "auth_provider" (.str s.provider))
      "has_auth" (.bool true)
    sc.environmentVariables.foldl
      (fun acc ev =>
        if containsSub ev.name "PUBLISHABLE" || containsSub ev.name "PUBLIC" then
          insertKey acc "public_auth_key_name" (.str ev.name)
        else acc) e
  | .database =>
    insertKey (insertKey exports "database_provider" (.str s.provider))
      "has_database" (.bool true)
  | .payments =>
    insertKey (insertKey exports "payments_provider" (.str s.provider))
      "has_payments" (.bool true)
  | .ai =>
    insertKey (insertKey exports "ai_provider" (.str s.provider)) "has_ai" (.bool true)
  | .api =>
    insertKey (insertKey
      (insertKey exports "api_pattern" (.str s.provider)) "has_api" (.bool true))
      "api_type" (.str s.provider)
  | c => insertKey exports ("has_" ++ categoryKey c) (.bool true)

/-- The full export map of one selection (`composition.rs` lines 473-524):
baseline exports, category exports, then the user configuration overlaid
under `config_<key>`. -/
def selectionExports (s : ServiceSelection) (sc : ServiceConfig) :
    List (String × JValue) :=
  let base := insertKey (insertKey [] "provider" (.str s.provider))
    "category" (.str (categoryDebug s.category))
  s.config.foldl (fun acc kv => insertKey acc ("config_" ++ kv.1) kv.2)
    (categoryExports s sc base)

/-- `build_service_context` (`composition.rs` lines 456-555).  Selections
whose manifest is missing contribute nothing; the shared facts are computed
from the accumulated services map. -/
def buildServiceContext (fs : FSModel) (sels : List ServiceSelection) : ServiceContext :=
  let services := sels.foldl
    (fun acc s =>
      match fs.serviceConfig s.category s.provider with
      | none => acc
      | some sc =>
        assocInsert acc (categoryDebug s.category)
          { provider := s.provider, config := s.config, exports := selectionExports s sc })
    []
  let hasAnyAuth := services.any (fun kv => kv.1 == "Auth")
  let hasAnyDatabase := services.any (fun kv => kv.1 == "Database")
  { services := services
    sharedConfig :=
      insertKey (insertKey (insertKey [] "has_any_auth" (.bool hasAnyAuth))
        "has_any_database" (.bool hasAnyDatabase))
        "service_count" (.num sels.length) }

/-! ## File collection (`collect_files_recursive`) -/

/-- `Path::extension()` on one path segment: the part after the last dot,
provided that dot is not the leading character. -/
def extensionOfName (name : String) : Option String :=
  match lastIdxOf '.' name.toList with
  | none => none
  | some 0 => none
  | some i => some (String.mk (name.toList.drop (i + 1)))

/-- `Path::extension()` of a relative path: the extension of its final
segment. -/
def extensionOfPath (p : RelPath) : Option String :=
  match p.getLast? with
  | none => none
  | some name => extensionOfName name

/-- Worker for `trimTeraSuffix`, on the reversed character list: repeatedly
strip a leading reversed `".tera"`. -/
def stripRevTera : List Char → List Char
  | 'a' :: 'r' :: 'e' :: 't' :: '.' :: rest => stripRevTera rest
  | l => l

/-- Rust `str::trim_end_matches(".tera")`: remove every trailing
repetition of the suffix. -/
def trimTeraSuffix (name : String) : String :=
  String.mk (stripRevTera name.toList.reverse).reverse

/-- One collected file (`composition.rs` lines 626-651): a `.tera`
extension marks a renderable template and is stripped from the final
segment of the output path; the merge strategy field is always the
default. -/
def composedOfEntry (src : FileSource) (pre : RelPath) (name content : String) :
    ComposedFile :=
  let isTpl := extensionOfName name == some "tera"
  let outName := if isTpl then trimTeraSuffix name else name
  { path := pre ++ [outName], content := content, source := src,
    mergeStrategy := .defaultStrategy, isTemplate := isTpl }

/-- `collect_files_recursive` (`composition.rs` lines 597-657): depth-first
walk in encounter order, skipping every `anvil.yaml`. -/
def collectEntries (src : FileSource) : RelPath → DirTree → List ComposedFile
  | _, .leaf => []
  | pre, .file name content rest =>
    (if name == "anvil.yaml" then [] else [composedOfEntry src pre name content])
      ++ collectEntries src pre rest
  | pre, .dir dname sub rest =>
    collectEntries src (pre ++ [dname]) sub ++ collectEntries src pre rest

/-- `collect_service_files` (`composition.rs` lines 572-592). -/
def collectServiceFilesM (fs : FSModel) (s : ServiceSelection) :
    Except EngError (List ComposedFile) :=
  if fs.serviceExists s.category s.provider then
    .ok (collectEntries (.service s.category s.provider) []
      (fs.serviceTree s.category s.provider))
  else
    .error (.compositionError
      ("Service files not found: " ++ categoryDebug s.category ++ "/" ++ s.provider))

/-- The service-collection loop of `compose_template` (lines 162-165). -/
def collectServicesFiles (fs : FSModel) : List ServiceSelection →
    Except EngError (List ComposedFile)
  | [] => .ok []
  | s :: rest =>
    match collectServiceFilesM fs s with
    | .error e => .error e
    | .ok f =>
      match collectServicesFiles fs rest with
      | .error e => .error e
      | .ok r => .ok (f ++ r)

/-- Base-template collection followed by service collection
(`compose_template` lines 159-165). -/
def collectAllFiles (fs : FSModel) (templateName : String)
    (sels : List ServiceSelection) : Except EngError (List ComposedFile) :=
  match collectServicesFiles fs sels with
  | .error e => .error e
  | .ok svc => .ok (collectEntries .baseTemplate [] (fs.templateTree templateName) ++ svc)

/-! ## Conditional inclusion (`apply_conditional_inclusion`) -/

/-- The condition-evaluation context (`composition.rs` lines 925-932): for
every selection, `<category> -> provider` and `has_<category> -> "true"`. -/
def selectionContext (sels : List ServiceSelection) : List (String × String) :=
  sels.foldl
    (fun ctx s =>
      assocInsert (assocInsert ctx (categoryKey s.category) s.provider)
        ("has_" ++ categoryKey s.category) "true")
    []

/-- The equality leaf `services.<cat> == <quoted>` (`composition.rs` lines
1021-1032); `none` when the shape does not match and control falls
through. -/
def simpleEqCondition (cond : String) (ctx : List (String × String)) : Option Bool :=
  if containsSub cond "==" then
    let parts := splitSub cond "=="
    if parts.length == 2 then
      let left := trimStr (parts.getD 0 "")
      let right := trimMatchesChar (trimMatchesChar (trimStr (parts.getD 1 "")) squote) dquote
      if startsWithStr left "services." then
        some (assocLookup ctx (dropPrefixStr left "services.") == some right)
      else none
    else none
  else none

/-- The membership leaf `services.<cat> in [...]` (`composition.rs` lines
1035-1051). -/
def simpleInCondition (cond : String) (ctx : List (String × String)) : Option Bool :=
  if containsSub cond " in " then
    let parts := splitSub cond " in "
    if parts.length == 2 then
      let left := trimStr (parts.getD 0 "")
      let right := trimStr (parts.getD 1 "")
      if startsWithStr left "services." && startsWithStr right "[" &&
          right.toList.getLast? == some ']' then
        let inner := String.mk (right.toList.drop 1).dropLast
        let options := (splitSub inner ",").map fun o =>
          trimMatchesChar (trimMatchesChar (trimStr o) squote) dquote
        some (match assocLookup ctx (dropPrefixStr left "services.") with
          | some v => options.contains v
          | none => false)
      else none
    else none
  else none

/-- The boolean leaf `has_<category>` (`composition.rs` lines 1054-1056). -/
def simpleHasCondition (cond : String) (ctx : List (String × String)) : Option Bool :=
  if startsWithStr cond "has_" then some (assocLookup ctx cond == some "true") else none

/-- `evaluate_simple_condition` (`composition.rs` lines 1013-1060): try the
three leaf forms in order; an unrecognised condition is included
(fail-open). -/
def evaluateSimpleCondition (cond0 : String) (ctx : List (String × String)) : Bool :=
  let cond := trimStr cond0
  ((simpleEqCondition cond ctx <|> simpleInCondition cond ctx) <|>
    simpleHasCondition cond ctx).getD true

/-- `evaluate_condition` (`composition.rs` lines 974-1007): split on `&&`
(conjunction) or, failing that, `||` (disjunction); otherwise a single
simple condition. -/
def evaluateCondition (cond0 : String) (ctx : List (String × String)) : Bool :=
  let cond := trimStr cond0
  if containsSub cond "&&" then
    (splitSub cond "&&").all fun part => evaluateSimpleCondition (trimStr part) ctx
  else if containsSub cond "||" then
    (splitSub cond "||").any fun part => evaluateSimpleCondition (trimStr part) ctx
  else
    evaluateSimpleCondition cond ctx

/-- `evaluate_implicit_conditions` (`composition.rs` lines 1066-1086):
base-template and merged files are always kept; a service file is kept iff
the context maps its category key to exactly its provider. -/
def evaluateImplicitConditions (f : ComposedFile) (ctx : List (String × String)) : Bool :=
  match f.source with
  | .baseTemplate => true
  | .service category provider => assocLookup ctx (categoryKey category) == some provider
  | .merged => true

/-- The explicit-rule loop of `evaluate_file_conditions` (`composition.rs`
lines 954-961): the FIRST rule whose path equals the file's output path
decides, returning immediately. -/
def explicitRuleDecision (ctx : List (String × String)) (p : RelPath) :
    List ConditionalFile → Option Bool
  | [] => none
  | cf :: rest =>
    if parseRelPath cf.path == p then some (evaluateCondition cf.condition ctx)
    else explicitRuleDecision ctx p rest

/-- The first conditional-files rule matching a path, if any. -/
def firstMatchingRule (comp : Option CompositionConfig) (p : RelPath) :
    Option ConditionalFile :=
  ((comp.map (·.conditionalFiles)).getD []).find? fun cf => parseRelPath cf.path == p

/-- `evaluate_file_conditions` (`composition.rs` lines 948-965): an explicit
rule match returns its verdict at once, otherwise the implicit provenance
rule decides. -/
def evaluateFileConditions (f : ComposedFile) (ctx : List (String × String))
    (comp : Option CompositionConfig) : Bool :=
  match explicitRuleDecision ctx f.path ((comp.map (·.conditionalFiles)).getD []) with
  | some b => b
  | none => evaluateImplicitConditions f ctx

/-- `apply_conditional_inclusion` (`composition.rs` lines 916-943). -/
def applyConditionalInclusion (files : List ComposedFile)
    (sels : List ServiceSelection) (comp : Option CompositionConfig) :
    List ComposedFile :=
  files.filter fun f => evaluateFileConditions f (selectionContext sels) comp

/-! ## Conflict resolution (`resolve_file_conflicts`) -/

/-- The comparator of the Override strategy (`composition.rs` lines
709-715), as a boolean `le`: `a` may stay before `b` unless `a` is a
service file and `b` a base-template file (every other pairing compares
`Equal` or `Less` in the Rust comparator). -/
def overrideLeB (a b : ComposedFile) : Bool :=
  match a.source, b.source with
  | .service _ _, .baseTemplate => false
  | _, _ => true

/-- `overrideLeB` as a relation, for the stable sort. -/
def overrideLe (a b : ComposedFile) : Prop :=
  overrideLeB a b = true

instance : DecidableRel overrideLe := fun a b =>
  instDecidableEqBool (overrideLeB a b) true

/-- The Append branch (`composition.rs` lines 718-731, duplicated at lines
738-750): concatenate every contributor, each followed by a newline; the
result is a non-renderable Merged file. -/
def appendFiles (p : RelPath) (files : List ComposedFile) : ComposedFile :=
  { path := p,
    content := files.foldl (fun acc f => acc ++ f.content ++ "\n") "",
    source := .merged, mergeStrategy := .append, isTemplate := false }

/-- The per-key merge of `merge_json_files` (`composition.rs` lines
777-793): the two dependency-collection keys merge their sub-objects when
both sides are objects (later sub-keys winning); every other key, and any
non-object dependency value, is overwritten by the later contributor. -/
def mergeField (acc : List (String × JValue)) (kv : String × JValue) :
    List (String × JValue) :=
  match lookupKey acc kv.1 with
  | some existing =>
    if (kv.1 == "dependencies" || kv.1 == "devDependencies") &&
        existing.isObj && kv.2.isObj then
      insertKey acc kv.1 (.obj (extendObj existing.objFields kv.2.objFields))
    else insertKey acc kv.1 kv.2
  | none => insertKey acc kv.1 kv.2

/-- One fold step of `merge_json_files` (`composition.rs` lines 775-795):
merge the top-level keys of one parsed contributor into the accumulator;
a contributor that is valid JSON but not an object contributes nothing. -/
def mergeJsonStep (acc : List (String × JValue)) (v : JValue) :
    List (String × JValue) :=
  match v with
  | .obj fields => fields.foldl mergeField acc
  | _ => acc

/-- The merged top-level object of exactly two parsed contributors. -/
def mergeTwoJsonObjects (a b : List (String × JValue)) : List (String × JValue) :=
  [JValue.obj a, JValue.obj b].foldl mergeJsonStep []

/-- The value `merge_json_files` stores for key `k` when the later
contributor supplies `v` and the accumulator held `existing` (the
case analysis of `mergeField`, as a value). -/
def mergeValue (existing : Option JValue) (k : String) (v : JValue) : JValue :=
  match existing with
  | some e =>
    if (k == "dependencies" || k == "devDependencies") && e.isObj && v.isObj then
      .obj (extendObj e.objFields v.objFields)
    else v
  | none => v

/-- Parse every contributor of a conflict group, failing on the first
invalid one (`composition.rs` lines 771-773). -/
def parseContributors (parse : String → Option JValue) (p : RelPath) :
    List ComposedFile → Except EngError (List JValue)
  | [] => .ok []
  | f :: rest => do
    match parse f.content with
    | none => .error (.compositionError ("Invalid JSON in " ++ String.intercalate "/" p))
    | some v =>
      let vs ← parseContributors parse p rest
      .ok (v :: vs)

/-- `merge_json_files` (`composition.rs` lines 764-808); `parse` and
`serialize` are the serde_json boundary. -/
def mergeJsonFiles (parse : String → Option JValue)
    (serialize : List (String × JValue) → String) (p : RelPath)
    (files : List ComposedFile) : Except EngError ComposedFile := do
  let vs ← parseContributors parse p files
  let merged := vs.foldl mergeJsonStep []
  .ok { path := p, content := serialize merged, source := .merged,
        mergeStrategy := .merge, isTemplate := false }

/-- `resolve_single_conflict` (`composition.rs` lines 700-758).  The
`default` fallback of `getLastD`/`headD` is unreachable: the function is
only applied to nonempty groups, matching the Rust `unwrap`s. -/
def resolveSingleConflict (parse : String → Option JValue)
    (serialize : List (String × JValue) → String) (p : RelPath)
    (files : List ComposedFile) (strategy : FileMergingStrategy) :
    Except EngError ComposedFile :=
  match strategy with
  | .override =>
    .ok ((files.insertionSort overrideLe).getLastD (appendFiles p []))
  | .append => .ok (appendFiles p files)
  | .merge =>
    if extensionOfPath p == some "json" then mergeJsonFiles parse serialize p files
    else .ok (appendFiles p files)
  | .skip => .ok (files.headD (appendFiles p []))

/-- The strategy chosen by `resolve_file_conflicts` (lines 683-687): the
composition config's strategy, defaulting to Merge. -/
def strategyOf (comp : Option CompositionConfig) : FileMergingStrategy :=
  (comp.map (·.fileMergingStrategy)).getD .defaultStrategy

/-- Resolution of one path's conflict group (`composition.rs` lines
677-691): singleton groups pass through unchanged. -/
def resolvePathGroup (parse : String → Option JValue)
    (serialize : List (String × JValue) → String)
    (strategy : FileMergingStrategy) (p : RelPath) (group : List ComposedFile) :
    Except EngError ComposedFile :=
  match group with
  | [f] => .ok f
  | _ => resolveSingleConflict parse serialize p group strategy

/-- `resolve_file_conflicts` (`composition.rs` lines 663-694).  The Rust
code iterates a freshly built `HashMap` grouped by path; `order` is that
iteration order of the keys, made explicit because it varies run to run.
Keys without files contribute nothing. -/
def resolveAll (parse : String → Option JValue)
    (serialize : List (String × JValue) → String)
    (strategy : FileMergingStrategy) (files : List ComposedFile) :
    List RelPath → Except EngError (List ComposedFile)
  | [] => .ok []
  | p :: rest =>
    match files.filter (fun f => f.path == p) with
    | [] => resolveAll parse serialize strategy files rest
    | group =>
      match resolvePathGroup parse serialize strategy p group with
      | .error e => .error e
      | .ok g =>
        match resolveAll parse serialize strategy files rest with
        | .error e => .error e
        | .ok r => .ok (g :: r)

/-- The distinct output paths of a file list: the key set of the
conflict-resolution `HashMap`. -/
def dedupKeys (files : List ComposedFile) : List RelPath :=
  (files.map (·.path)).dedup

/-- The resolution outcome for one key of the conflict map, as an option:
`none` for a key with no files, otherwise the resolved file (if resolution
succeeds).  `resolveAll` is exactly `List.filterMap` of this function over
the key iteration order (proved below), which is what makes the resolved
file SET independent of that order. -/
def resolveOneOpt (parse : String → Option JValue)
    (serialize : List (String × JValue) → String)
    (strategy : FileMergingStrategy) (files : List ComposedFile) (p : RelPath) :
    Option ComposedFile :=
  match files.filter (fun f => f.path == p) with
  | [] => none
  | group => (resolvePathGroup parse serialize strategy p group).toOption

/-! ## Dependency aggregation (`merge_dependencies`) -/

/-- The npm dependency-string split (`composition.rs` lines 850-878):
a scoped name with an internal `@` splits at the LAST `@`; an unscoped
name containing `@` splits at the FIRST `@`; everything else gets the
default caret version. -/
def parseNpmDep (dep : String) : String × String :=
  if dep.toList.contains '@' then
    if dep.toList.head? == some '@' && (dep.toList.drop 1).contains '@' then
      match lastIdxOf '@' dep.toList with
      | some i => (String.mk (dep.toList.take i), String.mk (dep.toList.drop (i + 1)))
      | none => (dep, "^1.0.0")
    else if !(dep.toList.head? == some '@') then
      match firstIdxOf '@' dep.toList with
      | some i => (String.mk (dep.toList.take i), String.mk (dep.toList.drop (i + 1)))
      | none => (dep, "^1.0.0")
    else (dep, "^1.0.0")
  else (dep, "^1.0.0")

/-- The JSON object built for one npm dependency (`composition.rs` lines
855-878). -/
def npmDepJson (dep : String) : JValue :=
  .obj [("name", .str (parseNpmDep dep).1), ("version", .str (parseNpmDep dep).2)]

/-- The JSON object built for one environment variable (`composition.rs`
lines 894-902); the `default` key is present only when declared. -/
def envVarJson (ev : EnvironmentVariable) : JValue :=
  .obj ([("name", .str ev.name), ("description", .str ev.description),
         ("required", .bool ev.required)] ++
    match ev.default with
    | some d => [("default", .str d)]
    | none => [])

/-- The provider manifests of the selections whose `anvil.yaml` exists, in
selection order (the manifest-collection loop shared by
`merge_dependencies` and `build_service_context`). -/
def gatherServiceConfigs (fs : FSModel) (sels : List ServiceSelection) :
    List ServiceConfig :=
  sels.filterMap fun s => fs.serviceConfig s.category s.provider

/-- All npm dependency strings across the selected services, concatenated
in order with no deduplication (`composition.rs` lines 830-834). -/
def gatherNpmDeps (fs : FSModel) (sels : List ServiceSelection) : List String :=
  (gatherServiceConfigs fs sels).flatMap fun sc =>
    ((sc.dependencies.map (·.npm)).getD none).getD []

/-- The cargo dependency map accumulated with `HashMap::extend`
(`composition.rs` lines 836-838). -/
def gatherCargoDeps (fs : FSModel) (sels : List ServiceSelection) :
    List (String × String) :=
  (gatherServiceConfigs fs sels).foldl
    (fun acc sc =>
      (((sc.dependencies.map (·.cargo)).getD none).getD []).foldl
        (fun acc kv => assocInsert acc kv.1 kv.2) acc)
    []

/-- All declared environment variables across the selected services, in
order, undeduplicated (`composition.rs` line 842). -/
def gatherEnvVars (fs : FSModel) (sels : List ServiceSelection) :
    List EnvironmentVariable :=
  (gatherServiceConfigs fs sels).flatMap (·.environmentVariables)

/-- `merge_dependencies` (`composition.rs` lines 814-910): the merged
dependency map handed to rendering, with `npm`, `cargo` and
`environment_variables` keys present only when nonempty. -/
def mergeDependencies (fs : FSModel) (sels : List ServiceSelection) :
    List (String × JValue) :=
  let npm := gatherNpmDeps fs sels
  let cargo := gatherCargoDeps fs sels
  let envs := gatherEnvVars fs sels
  (if npm.isEmpty then [] else [("npm", JValue.arr (npm.map npmDepJson))])
  ++ (if cargo.isEmpty then [] else
    [("cargo", JValue.obj (cargo.map fun kv => (kv.1, JValue.str kv.2)))])
  ++ (if envs.isEmpty then [] else
    [("environment_variables", JValue.arr (envs.map envVarJson))])

/-- `collect_environment_variables` (`composition.rs` lines 1091-1094):
a stub that always returns the empty map. -/
def collectEnvironmentVariables (_fs : FSModel) (_sels : List ServiceSelection) :
    List (String × String) :=
  []

/-! ## `compose_template` (`composition.rs` lines 143-186) -/

/-- `compose_template`: load and validate the template manifest, validate
the selections, build the service context, collect base and service files,
filter them, resolve conflicts (with `order` the conflict map's key
iteration order), aggregate dependencies and environment variables. -/
def composeTemplate (parse : String → Option JValue)
    (serialize : List (String × JValue) → String) (fs : FSModel)
    (templateName : String) (sels : List ServiceSelection) (order : List RelPath) :
    Except EngError ComposedTemplate :=
  match fs.templateConfig templateName with
  | none => .error (.fileError templateName)
  | some cfg =>
    match validateServiceSelections fs cfg sels with
    | .error e => .error e
    | .ok _ =>
      match collectAllFiles fs templateName sels with
      | .error e => .error e
      | .ok collected =>
        match resolveAll parse serialize (strategyOf cfg.composition)
            (applyConditionalInclusion collected sels cfg.composition) order with
        | .error e => .error e
        | .ok resolved =>
          .ok { baseConfig := cfg, files := resolved,
                mergedDependencies := mergeDependencies fs sels,
                environmentVariables := collectEnvironmentVariables fs sels,
                serviceContext := buildServiceContext fs sels }

/-! ## Rendering pipeline (`engine.rs`) -/

/-- A processed output file (`ProcessedFile`, `engine.rs`). -/
structure ProcessedFile where
  outputPath : RelPath
  content : String
  executable : Bool
deriving DecidableEq

/-- `should_be_executable` (`engine.rs` lines 295-305): extension allow-list
first; only extensionless files fall back to the filename allow-list. -/
def shouldBeExecutable (p : RelPath) : Bool :=
  match extensionOfPath p with
  | some e => e == "sh" || e == "py" || e == "rb" || e == "pl"
  | none =>
    match p.getLast? with
    | some n =>
      n == "gradlew" || n == "mvnw" || n == "install" || n == "configure" || n == "bootstrap"
    | none => false

/-- The per-file loop of `process_composed_template` (`engine.rs` lines
242-259): only files marked as templates go through the renderer (`render`
is the Tera boundary, closed over the shared context); the first rendering
failure aborts. -/
def processFiles (render : String → Except String String) :
    List ComposedFile → Except EngError (List ProcessedFile)
  | [] => .ok []
  | f :: rest =>
    match (if f.isTemplate then
             match render f.content with
             | .ok c => Except.ok c
             | .error e => Except.error (EngError.processingError e)
           else .ok f.content) with
    | .error e => .error e
    | .ok content =>
      match processFiles render rest with
      | .error e => .error e
      | .ok r => .ok ({ outputPath := f.path, content := content,
                        executable := shouldBeExecutable f.path } :: r)

/-- `process_composed_template` (`engine.rs` lines 234-264). -/
def processComposedTemplate (render : String → Except String String)
    (composed : ComposedTemplate) : Except EngError (List ProcessedFile) :=
  processFiles render composed.files

/-- The boolean inserted as `has_environment_variables` by
`build_shared_context` (`engine.rs` line 442). -/
def hasEnvironmentVariablesFlag (composed : ComposedTemplate) : Bool :=
  !composed.environmentVariables.isEmpty

/-- `replace(c, d)` on a character list (each occurrence). -/
def replaceChar (l : List Char) (c d : Char) : List Char :=
  l.map fun x => if x == c then d else x

/-- `snake_case_filter` (`engine.rs` lines 308-324): lower-case every
character, prefixing an underscore before every non-initial upper-case
character, then turn spaces and hyphens into underscores. -/
def snakeCaseFilter (s : String) : String :=
  let mapped := (s.toList.enum.map fun ic =>
    if ic.2.isUpper && ic.1 > 0 then ['_', ic.2.toLower] else [ic.2.toLower]).flatten
  String.mk (replaceChar (replaceChar mapped ' ' '_') '-' '_')

/-- The separator split of `pascal_case_filter` (`engine.rs` line 331):
split on space, underscore and hyphen. -/
def splitOnSeps : List Char → List Char → List (List Char)
  | [], acc => [acc.reverse]
  | c :: rest, acc =>
    if c == ' ' || c == '_' || c == '-' then acc.reverse :: splitOnSeps rest []
    else splitOnSeps rest (c :: acc)

/-- The camel-boundary split of `pascal_case_filter` (`engine.rs` lines
336-347): start a new word at every upper-case character (unless the
current word is empty). -/
def camelWords : List Char → List Char → List (List Char)
  | [], cur => if cur.isEmpty then [] else [cur.reverse]
  | c :: rest, cur =>
    if c.isUpper && !cur.isEmpty then cur.reverse :: camelWords rest [c]
    else camelWords rest (c :: cur)

/-- One word capitalised (`engine.rs` lines 352-357): first character
upper-cased, the rest lower-cased. -/
def capitalizeWord : List Char → List Char
  | [] => []
  | c :: rest => c.toUpper :: rest.map (·.toLower)

/-- `pascal_case_filter` (`engine.rs` lines 326-361). -/
def pascalCaseFilter (s : String) : String :=
  let segments := (splitOnSeps s.toList []).filter (fun seg => !seg.isEmpty)
  let words := segments.flatMap fun seg => camelWords seg []
  String.mk (words.map capitalizeWord).flatten

/-! ## Concrete instances

Small concrete filesystems, manifests and files used to evaluate the
pipeline at specific inputs. -/

/-- A JSON parser stub for scenarios that never reach a JSON merge. -/
def pNone : String → Option JValue := fun _ => none

/-- A serialiser stub for scenarios that never reach a JSON merge. -/
def serNone : List (String × JValue) → String := fun _ => ""

/-- A renderer that leaves content unchanged (never invoked on non-template
files anyway). -/
def renderId : String → Except String String := fun s => .ok s

/-- A minimal template manifest with no services. -/
def cfgW : TemplateConfig := { name := "app", description := "d", version := "1.0.0" }

/-- A filesystem with one template `app` holding a single static file. -/
def fsW : FSModel :=
  { templateConfig := fun n => if n == "app" then some cfgW else none
    templateTree := fun n => if n == "app" then .file "readme.md" "hi" .leaf else .leaf
    serviceExists := fun _ _ => false
    serviceConfig := fun _ _ => none
    serviceTree := fun _ _ => .leaf
    categoryListing := fun _ => none }

/-- The single collected file of `fsW`. -/
def fileW : ComposedFile :=
  { path := ["readme.md"], content := "hi", source := .baseTemplate,
    mergeStrategy := .merge, isTemplate := false }

/-- The composition result for `fsW` with no selections. -/
def tW : ComposedTemplate :=
  { baseConfig := cfgW, files := [fileW], mergedDependencies := [],
    environmentVariables := [],
    serviceContext :=
      { services := []
        sharedConfig := [("has_any_auth", .bool false), ("has_any_database", .bool false),
                         ("service_count", .num 0)] } }

/-- A template manifest requiring an auth service. -/
def cfgC4 : TemplateConfig :=
  { name := "app", description := "d", version := "1.0.0",
    services := [{ name := "auth", category := .auth, options := ["clerk"], required := true }] }

/-- `fsW` with the auth-requiring manifest. -/
def fsC4 : FSModel :=
  { fsW with templateConfig := fun n => if n == "app" then some cfgC4 else none }

/-- The clerk auth selection. -/
def selW : ServiceSelection := { category := .auth, provider := "clerk" }

/-- A provider manifest declaring one publishable-key environment
variable. -/
def scW : ServiceConfig :=
  { name := "clerk",
    environmentVariables :=
      [{ name := "CLERK_PUBLISHABLE_KEY", description := "pk", required := true,
         default := none }] }

/-- A template manifest offering an optional auth service. -/
def cfgC10 : TemplateConfig :=
  { name := "app", description := "d", version := "1.0.0",
    services := [{ name := "auth", category := .auth, options := ["clerk"] }] }

/-- A filesystem with the clerk provider installed. -/
def fsC10 : FSModel :=
  { templateConfig := fun n => if n == "app" then some cfgC10 else none
    templateTree := fun n => if n == "app" then .file "readme.md" "hi" .leaf else .leaf
    serviceExists := fun c p => c == ServiceCategory.auth && p == "clerk"
    serviceConfig := fun c p =>
      if c == ServiceCategory.auth && p == "clerk" then some scW else none
    serviceTree := fun _ _ => .leaf
    categoryListing := fun _ => none }

/-- The composition result for `fsC10` with the clerk selection. -/
def tW10 : ComposedTemplate :=
  { baseConfig := cfgC10, files := [fileW],
    mergedDependencies :=
      [("environment_variables",
        .arr [.obj [("name", .str "CLERK_PUBLISHABLE_KEY"), ("description", .str "pk"),
                    ("required", .bool true)]])],
    environmentVariables := [],
    serviceContext :=
      { services :=
          [("Auth",
            { provider := "clerk", config := []
              exports := [("provider", .str "clerk"), ("category", .str "Auth"),
                          ("auth_provider", .str "clerk"), ("has_auth", .bool true),
                          ("public_auth_key_name", .str "CLERK_PUBLISHABLE_KEY")] })]
        sharedConfig := [("has_any_auth", .bool true), ("has_any_database", .bool false),
                         ("service_count", .num 1)] }}

/-- A template manifest whose composition config gates `extra.txt` on
`has_auth`. -/
def cfgC5 : TemplateConfig :=
  { name := "app", description := "d", version := "1.0.0",
    composition := some { conditionalFiles := [{ path := "extra.txt", condition := "has_auth" }] } }

/-- A filesystem whose base template ships a static `extra.txt`. -/
def fsC5 : FSModel :=
  { fsW with
    templateConfig := fun n => if n == "app" then some cfgC5 else none
    templateTree := fun n => if n == "app" then .file "extra.txt" "hello" .leaf else .leaf }

/-- The collected static file of `fsC5`. -/
def fileC5 : ComposedFile :=
  { path := ["extra.txt"], content := "hello", source := .baseTemplate,
    mergeStrategy := .merge, isTemplate := false }

/-- A template manifest whose auth definition lists its own category in its
`conflicts`. -/
def cfgC8 : TemplateConfig :=
  { name := "app", description := "d", version := "1.0.0",
    services := [{ name := "auth", category := .auth, options := ["clerk"],
                   conflicts := some ["auth"] }] }

/-- `fsW` with the self-conflicting manifest and clerk installed. -/
def fsC8 : FSModel :=
  { fsW with
    templateConfig := fun n => if n == "app" then some cfgC8 else none
    serviceExists := fun c p => c == ServiceCategory.auth && p == "clerk" }

/-- A service-provenance file whose provider is NOT selected. -/
def fileC2 : ComposedFile :=
  { path := ["extra.txt"], content := "x", source := .service .auth "clerk",
    mergeStrategy := .merge, isTemplate := false }

/-- A composition config with one always-true (unrecognised, hence
fail-open) explicit rule for `extra.txt`. -/
def compC2 : Option CompositionConfig :=
  some { conditionalFiles := [{ path := "extra.txt", condition := "include-me" }] }

/-- First JSON contributor of the structural-merge scenario. -/
def aW : List (String × JValue) :=
  [("name", .str "base"), ("dependencies", .obj [("axios", .str "1.0")])]

/-- Second JSON contributor of the structural-merge scenario. -/
def bW : List (String × JValue) :=
  [("name", .str "svc"), ("dependencies", .obj [("zod", .str "3.0")])]

/-- The composition result for `fsC5` (the conditional rule drops the only
file). -/
def tC5 : ComposedTemplate :=
  { baseConfig := cfgC5, files := [], mergedDependencies := [], environmentVariables := [],
    serviceContext :=
      { services := []
        sharedConfig := [("has_any_auth", .bool false), ("has_any_database", .bool false),
                         ("service_count", .num 0)] } }

def ptW : List ProcessedFile :=
  [{ outputPath := ["readme.md"], content := "hi", executable := false }]

/-! # Theorems

Helper lemmas first, then one theorem (plus witness or counterexample as
needed) per specification claim. -/

/-- `lexLeChars` is total. -/
theorem lexLeChars_total : ∀ a b : List Char, lexLeChars a b = true ∨ lexLeChars b a = true := by
  intro a
  induction a with
  | nil => intro b; left; rfl
  | cons x as ih =>
    intro b
    cases b with
    | nil => right; rfl
    | cons y bs =>
      simp only [lexLeChars]
      by_cases hxy : x = y
      · subst hxy; simp only [beq_self_eq_true, if_true]; exact ih bs
      · have hyx : ¬ (y = x) := fun h => hxy h.symm
        simp only [beq_iff_eq, hxy, hyx, if_false]
        rcases lt_or_gt_of_ne hxy with h | h
        · left; simp [h]
        · right; simp [h]

/-- `lexLeChars` is transitive. -/
theorem lexLeChars_trans : ∀ a b c : List Char,
    lexLeChars a b = true → lexLeChars b c = true → lexLeChars a c = true := by
  intro a
  induction a with
  | nil => intros; rfl
  | cons x as ih =>
    intro b c h1 h2
    cases b with
    | nil => simp [lexLeChars] at h1
    | cons y bs =>
      cases c with
      | nil => simp [lexLeChars] at h2
      | cons z cs =>
        simp only [lexLeChars, beq_iff_eq] at h1 h2 ⊢
        by_cases hxy : x = y
        · subst hxy
          by_cases hyz : x = z
          · subst hyz
            simp only [if_true] at h1 h2 ⊢
            exact ih bs cs (by simpa using h1) (by simpa using h2)
          · simp only [hyz, if_false] at h2 ⊢
            simpa using h2
        · simp only [hxy, if_false] at h1
          by_cases hyz : y = z
          · subst hyz; simp only [hxy, if_false]; simpa using h1
          · simp only [hyz, if_false] at h2
            have h1' : x < y := by simpa using h1
            have h2' : y < z := by simpa using h2
            have hxz : x < z := lt_trans h1' h2'
            have hne : ¬ (x = z) := ne_of_lt hxz
            simp [hne, hxz]

instance : IsTotal String lexLe :=
  ⟨fun a b => lexLeChars_total a.toList b.toList⟩

instance : IsTrans String lexLe :=
  ⟨fun a b c => lexLeChars_trans a.toList b.toList c.toList⟩

/-- Claim C9: the snake_case filter turns `MyAwesomeProject` into
`my_awesome_project`; the PascalCase filter turns `my-awesome_project` into
`MyAwesomeProject`, splitting on separators, and splits on existing case
boundaries as well (`MyAwesomeProject` maps to itself rather than to
`Myawesomeproject`). -/
theorem snake_pascal_case_filters :
    snakeCaseFilter "MyAwesomeProject" = "my_awesome_project" ∧
    pascalCaseFilter "my-awesome_project" = "MyAwesomeProject" ∧
    pascalCaseFilter "MyAwesomeProject" = "MyAwesomeProject" :=
  ⟨by decide, by decide, by decide⟩

/-- Claim C3, counterexample: with a single discovered provider `auth0`,
`discover_service_providers` returns `["auth0", "none"]` — the sentinel
`"none"` is NOT the first element, because the code sorts the whole vector
after prefixing the sentinel. -/
theorem discover_none_not_first :
    discoverServiceProviders (some [⟨"auth0", true, true⟩]) = ["auth0", "none"] ∧
    (discoverServiceProviders (some [⟨"auth0", true, true⟩])).head? ≠ some "none" :=
  ⟨by decide, by decide⟩

/-- Claim C3, amended: the provider list always CONTAINS the sentinel
`"none"`; for an existing category directory it is a permutation of
`"none"` plus the discovered provider names (directories holding a provider
manifest), sorted lexicographically — `"none"` is first only when it sorts
first; a missing category directory yields exactly `["none"]` and not an
error. -/
theorem discover_providers_spec :
    (∀ l, "none" ∈ discoverServiceProviders l) ∧
    discoverServiceProviders none = ["none"] ∧
    (∀ entries, (discoverServiceProviders (some entries)).Perm
        ("none" :: (entries.filter (fun e => e.isDir && e.hasConfig)).map (·.name)) ∧
      (discoverServiceProviders (some entries)).Sorted lexLe) := by
  refine ⟨?_, rfl, fun entries => ⟨?_, ?_⟩⟩
  · intro l
    cases l with
    | none => simp [discoverServiceProviders]
    | some entries =>
      have hp := List.perm_insertionSort lexLe
        ("none" :: (entries.filter (fun e => e.isDir && e.hasConfig)).map (·.name))
      exact hp.mem_iff.mpr (List.mem_cons_self _ _)
  · exact List.perm_insertionSort lexLe _
  · exact List.sorted_insertionSort lexLe _

/-- The explicit-rule loop returns the verdict of the first matching rule. -/
theorem explicitRuleDecision_eq (ctx : List (String × String)) (p : RelPath) :
    ∀ rules, explicitRuleDecision ctx p rules =
      (rules.find? fun cf => parseRelPath cf.path == p).map
        fun cf => evaluateCondition cf.condition ctx := by
  intro rules
  induction rules with
  | nil => rfl
  | cons cf rest ih =>
    simp only [explicitRuleDecision, List.find?]
    by_cases h : parseRelPath cf.path == p
    · simp [h]
    · simp only [Bool.not_eq_true] at h
      simp [h, ih]

/-- Claim C2, counterexample: `fileC2` has Service provenance for the
unselected pair (auth, clerk), so the implicit rule fails, yet
`evaluate_file_conditions` keeps it because its path has a passing explicit
rule — the explicit match returns immediately and the implicit rule is
never consulted, contradicting "kept iff both pass". -/
theorem explicit_rule_bypasses_implicit :
    evaluateFileConditions fileC2 (selectionContext []) compC2 = true ∧
    evaluateImplicitConditions fileC2 (selectionContext []) = false :=
  ⟨by decide, by decide⟩

/-- Claim C2, amended: a file is kept iff EITHER its path matches an
explicit `conditional_files` rule and the first matching rule's condition
evaluates to true (the implicit provenance rule is then bypassed), OR no
explicit rule matches and the implicit provenance rule passes; the
implicit rule keeps a Service-provenance file exactly when the context
maps its category to exactly its provider, i.e. that (category, provider)
pair is an active selection. -/
theorem file_conditions_spec :
    ∀ (f : ComposedFile) (ctx : List (String × String)) (comp : Option CompositionConfig),
    (evaluateFileConditions f ctx comp = true ↔
      ((∃ cf, firstMatchingRule comp f.path = some cf ∧
          evaluateCondition cf.condition ctx = true) ∨
       (firstMatchingRule comp f.path = none ∧
          evaluateImplicitConditions f ctx = true))) ∧
    (∀ category provider ctx2,
      evaluateImplicitConditions { f with source := .service category provider } ctx2 =
        (assocLookup ctx2 (categoryKey category) == some provider)) := by
  intro f ctx comp
  constructor
  · unfold evaluateFileConditions firstMatchingRule
    rw [explicitRuleDecision_eq]
    cases hfind : ((comp.map (·.conditionalFiles)).getD []).find?
        (fun cf => parseRelPath cf.path == f.path) with
    | none => simp
    | some cf => simp
  · intro category provider ctx2
    rfl

/-- Membership implies boolean containment. -/
theorem contains_of_mem (l : List Char) (c : Char) (h : c ∈ l) : l.contains c = true := by
  simpa [List.contains, List.elem_iff] using h

/-- Boolean non-containment implies non-membership. -/
theorem not_mem_of_contains_eq_false (l : List Char) (c : Char)
    (h : l.contains c = false) : c ∉ l := by
  intro hmem
  rw [contains_of_mem l c hmem] at h
  cases h

/-- The first occurrence of `c` in `cs ++ c :: rest` with `c ∉ cs` sits at
index `cs.length`. -/
theorem firstIdxOf_append_cons (c : Char) (cs rest : List Char) (h : c ∉ cs) :
    firstIdxOf c (cs ++ c :: rest) = some cs.length := by
  induction cs with
  | nil =>
    rw [List.nil_append]
    show (if (c == c) = true then some 0 else (firstIdxOf c rest).map (· + 1)) = some 0
    rw [beq_self_eq_true]
    exact if_pos rfl
  | cons x xs ih =>
    have hx : (x == c) = false := by
      simp only [beq_eq_false_iff_ne, ne_eq]
      intro hh
      exact h (hh ▸ List.mem_cons_self x xs)
    have h' : c ∉ xs := fun hc => h (List.mem_cons_of_mem x hc)
    rw [List.cons_append]
    show (if (x == c) = true then some 0
          else (firstIdxOf c (xs ++ c :: rest)).map (· + 1)) = some (x :: xs).length
    rw [hx, ih h']
    rfl

/-- Character-list shape of gluing two strings with an `@`. -/
theorem toList_append_at (a b : String) :
    (a ++ "@" ++ b).toList = a.toList ++ '@' :: b.toList := by
  show (a ++ "@" ++ b).data = a.data ++ '@' :: b.data
  rw [String.data_append, String.data_append, List.append_assoc]
  rfl

/-- Rebuilding a string from its characters is the identity. -/
theorem mk_data (s : String) : String.mk s.data = s := rfl

/-- Claim C7: the npm dependency split.  The two spec scenarios hold, and in
general: a string with no `@` keeps its name with default version
`^1.0.0`; an unscoped `name@version` splits at its FIRST `@`; a scoped name
with no internal `@` gets the default version; a scoped `name@version`
(leading `@`, `@`-free version) splits at its LAST `@`. -/
theorem npm_dep_split :
    parseNpmDep "@scope/pkg@^5.0.0" = ("@scope/pkg", "^5.0.0") ∧
    parseNpmDep "lodash" = ("lodash", "^1.0.0") ∧
    (∀ s : String, s.toList.contains '@' = false → parseNpmDep s = (s, "^1.0.0")) ∧
    (∀ name ver : String, name.toList ≠ [] → name.toList.contains '@' = false →
      parseNpmDep (name ++ "@" ++ ver) = (name, ver)) ∧
    (∀ s : String, s.toList.head? = some '@' → (s.toList.drop 1).contains '@' = false →
      parseNpmDep s = (s, "^1.0.0")) ∧
    (∀ nm ver : String, nm.toList.head? = some '@' → ver.toList.contains '@' = false →
      parseNpmDep (nm ++ "@" ++ ver) = (nm, ver)) := by
  refine ⟨rfl, rfl, ?_, ?_, ?_, ?_⟩
  · intro s h
    unfold parseNpmDep
    rw [h]
    exact if_neg (by simp)
  · intro name ver hne h
    have hnotin : '@' ∉ name.toList := not_mem_of_contains_eq_false _ _ h
    have hcs : (name ++ "@" ++ ver).toList = name.toList ++ '@' :: ver.toList :=
      toList_append_at name ver
    have hcont : (name.toList ++ '@' :: ver.toList).contains '@' = true :=
      contains_of_mem _ _ (by simp)
    have hheadb : ((name.toList ++ '@' :: ver.toList).head? == some '@') = false := by
      cases hmt : name.toList with
      | nil => exact absurd hmt hne
      | cons x xs =>
        simp only [List.cons_append, List.head?_cons, beq_eq_false_iff_ne, ne_eq,
          Option.some.injEq]
        intro hh
        exact hnotin (by rw [hmt, hh]; exact List.mem_cons_self _ _)
    have hidx : firstIdxOf '@' (name.toList ++ '@' :: ver.toList) = some name.toList.length :=
      firstIdxOf_append_cons '@' _ _ hnotin
    have htake : (name.toList ++ '@' :: ver.toList).take name.toList.length = name.toList :=
      List.take_left _ _
    have hdrop : (name.toList ++ '@' :: ver.toList).drop (name.toList.length + 1)
        = ver.toList := by
      have h0 : name.toList ++ '@' :: ver.toList = (name.toList ++ ['@']) ++ ver.toList := by
        simp
      have hlen : (name.toList ++ ['@']).length = name.toList.length + 1 := by simp
      rw [h0, ← hlen]
      exact List.drop_left _ _
    unfold parseNpmDep
    rw [hcs, hcont, if_pos rfl, hheadb]
    simp only [Bool.false_and, Bool.not_false, Bool.false_eq_true, if_false, if_true, hidx,
      htake, hdrop]
    exact Prod.ext (mk_data name) (mk_data ver)
  · intro s h1 h2
    cases hmt : s.toList with
    | nil => rw [hmt] at h1; cases h1
    | cons x xs =>
      rw [hmt] at h1
      have hx : x = '@' := by
        simp only [List.head?_cons, Option.some.injEq] at h1
        exact h1
      subst hx
      rw [hmt] at h2
      have h2' : xs.contains '@' = false := h2
      have hcont : s.toList.contains '@' = true := by
        rw [hmt]; exact contains_of_mem _ _ (List.mem_cons_self _ _)
      unfold parseNpmDep
      rw [hcont, if_pos rfl, hmt]
      show (if (((('@' : Char) :: xs).head? == some '@') &&
            ((('@' : Char) :: xs).drop 1).contains '@') = true then _ else _) = (s, "^1.0.0")
      have hc1 : (((('@' : Char) :: xs).head? == some '@') &&
          ((('@' : Char) :: xs).drop 1).contains '@') = false := by
        show ((some '@' == some '@') && xs.contains '@') = false
        rw [h2']
        simp
      rw [hc1]
      have hc2 : (!((('@' : Char) :: xs).head? == some '@')) = false := by
        show (!(some '@' == some '@')) = false
        simp
      simp only [Bool.false_eq_true, if_false, hc2]
  · intro nm ver h1 h2
    have hver : '@' ∉ ver.toList := not_mem_of_contains_eq_false _ _ h2
    cases hmt : nm.toList with
    | nil => rw [hmt] at h1; cases h1
    | cons x xs =>
      rw [hmt] at h1
      have hx : x = '@' := by
        simp only [List.head?_cons, Option.some.injEq] at h1
        exact h1
      subst hx
      have hcs : (nm ++ "@" ++ ver).toList = ('@' :: xs) ++ '@' :: ver.toList := by
        rw [toList_append_at, hmt]
      have hcont : ((('@' : Char) :: xs) ++ '@' :: ver.toList).contains '@' = true :=
        contains_of_mem _ _ (List.mem_cons_self _ _)
      have hlast : lastIdxOf '@' ((('@' : Char) :: xs) ++ '@' :: ver.toList) =
          some (('@' :: xs : List Char).length) := by
        unfold lastIdxOf
        have hrev : ((('@' : Char) :: xs) ++ '@' :: ver.toList).reverse =
            ver.toList.reverse ++ '@' :: ('@' :: xs : List Char).reverse := by
          rw [List.reverse_append, List.reverse_cons, List.append_assoc]
          rfl
        rw [hrev]
        have hnotin : '@' ∉ ver.toList.reverse := by simpa using hver
        rw [firstIdxOf_append_cons '@' _ _ hnotin]
        simp only [Option.map_some']
        congr 1
        simp only [List.length_append, List.length_cons, List.length_reverse]
        omega
      have htake : ((('@' : Char) :: xs) ++ '@' :: ver.toList).take
          (('@' :: xs : List Char).length) = '@' :: xs := List.take_left _ _
      have hdrop : ((('@' : Char) :: xs) ++ '@' :: ver.toList).drop
          (('@' :: xs : List Char).length + 1) = ver.toList := by
        have h0 : (('@' : Char) :: xs) ++ '@' :: ver.toList =
            (('@' :: xs) ++ ['@']) ++ ver.toList := by simp
        have hlen : ((('@' : Char) :: xs) ++ ['@']).length
            = ('@' :: xs : List Char).length + 1 := by simp
        rw [h0, ← hlen]
        exact List.drop_left _ _
      have hc1 : (((('@' : Char) :: xs ++ '@' :: ver.toList).head? == some '@') &&
          ((('@' : Char) :: xs ++ '@' :: ver.toList).drop 1).contains '@') = true := by
        show ((some '@' == some '@') && (xs ++ '@' :: ver.toList).contains '@') = true
        rw [contains_of_mem _ _ (by simp)]
        simp
      unfold parseNpmDep
      rw [hcs, hcont, if_pos rfl]
      rw [hc1]
      simp only [if_true, hlast, htake, hdrop]
      have hnm : String.mk ('@' :: xs) = nm := by rw [← hmt]; exact mk_data nm
      rw [hnm]
      exact Prod.ext rfl (mk_data ver)

/-- Claim C7, witness: the general split cases of `npm_dep_split`
instantiated at concrete dependency strings. -/
theorem npm_dep_split_witness :
    ("lodash".toList ≠ [] ∧ "lodash".toList.contains '@' = false ∧
      parseNpmDep ("lodash" ++ "@" ++ "4.17.21") = ("lodash", "4.17.21")) ∧
    ("typescript".toList.contains '@' = false ∧
      parseNpmDep "typescript" = ("typescript", "^1.0.0")) ∧
    ("@scope/pkg".toList.head? = some '@' ∧
      ("@scope/pkg".toList.drop 1).contains '@' = false ∧
      parseNpmDep "@scope/pkg" = ("@scope/pkg", "^1.0.0")) ∧
    ("@clerk/nextjs".toList.head? = some '@' ∧ "5.0.0".toList.contains '@' = false ∧
      parseNpmDep ("@clerk/nextjs" ++ "@" ++ "5.0.0") = ("@clerk/nextjs", "5.0.0")) :=
  ⟨⟨by decide, by decide,
      npm_dep_split.2.2.2.1 "lodash" "4.17.21" (by decide) (by decide)⟩,
   ⟨by decide, npm_dep_split.2.2.1 "typescript" (by decide)⟩,
   ⟨by decide, by decide, npm_dep_split.2.2.2.2.1 "@scope/pkg" (by decide) (by decide)⟩,
   ⟨by decide, by decide,
      npm_dep_split.2.2.2.2.2 "@clerk/nextjs" "5.0.0" (by decide) (by decide)⟩⟩

/-- The first `findSome?` hit exists iff some element produces a value. -/
theorem findSome_isSome {α β : Type} (f : α → Option β) :
    ∀ l : List α, (l.findSome? f).isSome = true ↔ ∃ x ∈ l, (f x).isSome = true := by
  intro l
  induction l with
  | nil => simp [List.findSome?]
  | cons a rest ih =>
    rw [List.findSome?_cons]
    cases hfa : f a with
    | some b => simp [hfa]
    | none => simp [hfa, ih]

/-- Claim C8, counterexample: one single selection (auth, clerk) whose
definition lists its own category `auth` in `conflicts` makes validation
report a service-conflict error, although there is no OTHER selection of
that category — the conflict scan does not exclude the selection itself. -/
theorem self_conflict_detected :
    validateServiceSelections fsC8 cfgC8 [selW] =
      .error (.compositionError "Service conflict: auth conflicts with auth") ∧
    ∀ s ∈ [selW], s = selW :=
  ⟨rfl, fun _ hs => List.eq_of_mem_singleton hs⟩

/-- Claim C8, amended: selection validation reports a service-conflict
error iff some selection's (first matching) service definition declares a
conflicts list naming the lower-cased category of ANY selection — the
selection itself included, so a definition whose own category appears in
its conflicts list conflicts with itself. -/
theorem conflict_error_iff (cfg : TemplateConfig) (sels : List ServiceSelection) :
    (conflictError cfg sels).isSome = true ↔
    ∃ sel ∈ sels, ∃ d, cfg.services.find? (fun d' => d'.category == sel.category) = some d ∧
      ∃ cs, d.conflicts = some cs ∧ ∃ c ∈ cs, ∃ s ∈ sels, categoryKey s.category = c := by
  unfold conflictError
  rw [findSome_isSome]
  apply exists_congr
  intro sel
  apply and_congr_right
  intro _
  cases hfind : cfg.services.find? (fun d' => d'.category == sel.category) with
  | none => simp [hfind]
  | some d =>
    simp only [hfind, Option.some.injEq]
    cases hcs : d.conflicts with
    | none => simp [hcs]
    | some cs =>
      simp only [hcs, Option.isSome_map']
      rw [List.find?_isSome]
      constructor
      · rintro ⟨c, hc, hp⟩
        rw [List.any_eq_true] at hp
        obtain ⟨s, hs, hkey⟩ := hp
        exact ⟨d, rfl, cs, hcs, c, hc, s, hs, by simpa using hkey⟩
      · rintro ⟨d', hd', cs', hcs', c, hc, s, hs, hkey⟩
        cases hd'
        rw [hcs'] at hcs
        cases hcs
        exact ⟨c, hc, List.any_eq_true.mpr ⟨s, hs, by simpa using hkey⟩⟩


/-! ## Structural-merge lemmas (claim C6) -/

theorem lookupKey_eq_none_of_not_mem (m : List (String × JValue)) (k : String)
    (h : k ∉ m.map Prod.fst) : lookupKey m k = none := by
  induction m with
  | nil => rfl
  | cons kv rest ih =>
    obtain ⟨k1, v1⟩ := kv
    have h1 : k1 ≠ k := by
      intro hh
      exact h (List.mem_map.mpr ⟨(k1, v1), List.mem_cons_self _ _, hh⟩)
    have hne : (k1 == k) = false := beq_eq_false_iff_ne.mpr h1
    have h2 : k ∉ rest.map Prod.fst := by
      intro hh
      rw [List.map_cons] at h
      exact h (List.mem_cons_of_mem _ hh)
    simp only [lookupKey, hne, Bool.false_eq_true, if_false]
    exact ih h2


theorem lookupKey_insertKey (m : List (String × JValue)) (k : String) (v : JValue)
    (k' : String) :
    lookupKey (insertKey m k v) k' = if k' = k then some v else lookupKey m k' := by
  induction m with
  | nil =>
    by_cases h : k' = k
    · subst h; simp [insertKey, lookupKey]
    · have hne : (k == k') = false := beq_eq_false_iff_ne.mpr (Ne.symm h)
      simp [insertKey, lookupKey, h, hne]
  | cons kv rest ih =>
    obtain ⟨k1, v1⟩ := kv
    by_cases h1 : k1 = k
    · subst h1
      simp only [insertKey, beq_self_eq_true, if_true]
      by_cases h2 : k' = k1
      · subst h2
        simp [lookupKey]
      · have hne : (k1 == k') = false := beq_eq_false_iff_ne.mpr (Ne.symm h2)
        simp [lookupKey, hne, h2]
    · have hne1 : (k1 == k) = false := beq_eq_false_iff_ne.mpr h1
      simp only [insertKey, hne1, Bool.false_eq_true, if_false]
      by_cases h2 : k' = k1
      · subst h2
        have h2k : ¬ (k' = k) := h1
        simp [lookupKey, h2k]
      · have hne2 : (k1 == k') = false := beq_eq_false_iff_ne.mpr (Ne.symm h2)
        simp only [lookupKey, hne2, Bool.false_eq_true, if_false, ih]

theorem lookupKey_mergeField_ne (acc : List (String × JValue)) (kv : String × JValue)
    (k : String) (h : k ≠ kv.1) :
    lookupKey (mergeField acc kv) k = lookupKey acc k := by
  unfold mergeField
  cases lookupKey acc kv.1 with
  | none => dsimp only; rw [lookupKey_insertKey]; simp [h]
  | some e =>
    dsimp only
    by_cases hc : ((kv.1 == "dependencies" || kv.1 == "devDependencies") &&
        e.isObj && kv.2.isObj) = true
    · simp [hc, lookupKey_insertKey, h]
    · simp [hc, lookupKey_insertKey, h]

theorem lookupKey_foldl_notin (fields : List (String × JValue)) (k : String)
    (h : ∀ kv ∈ fields, kv.1 ≠ k) :
    ∀ acc, lookupKey (fields.foldl mergeField acc) k = lookupKey acc k := by
  induction fields with
  | nil => intro acc; rfl
  | cons kv rest ih =>
    intro acc
    rw [List.foldl_cons]
    rw [ih (fun x hx => h x (List.mem_cons_of_mem kv hx))]
    exact lookupKey_mergeField_ne acc kv k (fun hh => h kv (List.mem_cons_self _ _) hh.symm)

theorem lookupKey_mergeField_self (acc : List (String × JValue)) (k : String) (v : JValue) :
    lookupKey (mergeField acc (k, v)) k = some (mergeValue (lookupKey acc k) k v) := by
  unfold mergeField mergeValue
  cases lookupKey acc k with
  | none => dsimp only; rw [lookupKey_insertKey]; simp
  | some e =>
    dsimp only
    by_cases hc : ((k == "dependencies" || k == "devDependencies") && e.isObj && v.isObj) = true
    · simp [hc, lookupKey_insertKey]
    · simp [hc, lookupKey_insertKey]

theorem lookupKey_foldl_mergeField (fields : List (String × JValue)) (k : String)
    (hnd : (fields.map Prod.fst).Nodup) :
    ∀ acc, lookupKey (fields.foldl mergeField acc) k =
      match lookupKey fields k with
      | none => lookupKey acc k
      | some v => some (mergeValue (lookupKey acc k) k v) := by
  induction fields with
  | nil => intro acc; rfl
  | cons kv rest ih =>
    intro acc
    obtain ⟨k1, v1⟩ := kv
    rw [List.map_cons, List.nodup_cons] at hnd
    obtain ⟨hk1, hrest⟩ := hnd
    rw [List.foldl_cons]
    by_cases h : k = k1
    · subst h
      have hnotin : ∀ kv' ∈ rest, kv'.1 ≠ k := by
        intro kv' hkv' hh
        exact hk1 (List.mem_map.mpr ⟨kv', hkv', hh⟩)
      rw [lookupKey_foldl_notin rest k hnotin]
      rw [lookupKey_mergeField_self]
      simp [lookupKey]
    · have hne : (k1 == k) = false := beq_eq_false_iff_ne.mpr (Ne.symm h)
      rw [ih hrest]
      rw [lookupKey_mergeField_ne acc (k1, v1) k h]
      simp only [lookupKey, hne, Bool.false_eq_true, if_false]

theorem lookupKey_extendObj (m2 : List (String × JValue)) (j : String)
    (hnd : (m2.map Prod.fst).Nodup) :
    ∀ m1, lookupKey (extendObj m1 m2) j = (lookupKey m2 j <|> lookupKey m1 j) := by
  induction m2 with
  | nil => intro m1; simp [extendObj, lookupKey]
  | cons kv rest ih =>
    intro m1
    obtain ⟨k2, v2⟩ := kv
    rw [List.map_cons, List.nodup_cons] at hnd
    obtain ⟨hk2, hrest⟩ := hnd
    have hstep : extendObj m1 ((k2, v2) :: rest) = extendObj (insertKey m1 k2 v2) rest := rfl
    rw [hstep, ih hrest (insertKey m1 k2 v2)]
    by_cases h : j = k2
    · subst h
      have hnone : lookupKey rest j = none :=
        lookupKey_eq_none_of_not_mem rest j hk2
      rw [hnone, lookupKey_insertKey]
      simp [lookupKey]
    · have hne : (k2 == j) = false := beq_eq_false_iff_ne.mpr (Ne.symm h)
      rw [lookupKey_insertKey]
      simp only [h, if_false, lookupKey, hne, Bool.false_eq_true]


/-- Claim C6: under the structural-merge strategy on a `.json` path, for
two contributors both parsing as JSON objects (with duplicate-free keys,
as JSON parsing guarantees): every top-level key other than the two
dependency-collection keys is overwritten wholesale by the later
contributor; for `dependencies`/`devDependencies` with object values on
both sides, the sub-objects are merged, the later contributor's sub-key
winning on exact collision and disjoint sub-keys yielding the exact union
with no key loss (the `<|>` characterisation of the merged lookup). -/
theorem structural_merge_spec (a b : List (String × JValue))
    (ha : (a.map Prod.fst).Nodup) (hb : (b.map Prod.fst).Nodup) :
    (∀ k, k ≠ "dependencies" → k ≠ "devDependencies" →
      lookupKey (mergeTwoJsonObjects a b) k = (lookupKey b k <|> lookupKey a k)) ∧
    (∀ dk da db2, (dk = "dependencies" ∨ dk = "devDependencies") →
      lookupKey a dk = some (.obj da) → lookupKey b dk = some (.obj db2) →
      (db2.map Prod.fst).Nodup →
      lookupKey (mergeTwoJsonObjects a b) dk = some (.obj (extendObj da db2)) ∧
      ∀ j, lookupKey (extendObj da db2) j = (lookupKey db2 j <|> lookupKey da j)) := by
  have hfirst : ∀ k, lookupKey (mergeJsonStep [] (.obj a)) k = lookupKey a k := by
    intro k
    show lookupKey (a.foldl mergeField []) k = _
    rw [lookupKey_foldl_mergeField a k ha []]
    cases hl : lookupKey a k with
    | none => rfl
    | some v => rfl
  have hmain : ∀ k, lookupKey (mergeTwoJsonObjects a b) k =
      match lookupKey b k with
      | none => lookupKey a k
      | some v => some (mergeValue (lookupKey a k) k v) := by
    intro k
    show lookupKey (b.foldl mergeField (mergeJsonStep [] (.obj a))) k = _
    rw [lookupKey_foldl_mergeField b k hb]
    cases hlb : lookupKey b k with
    | none => dsimp only; exact hfirst k
    | some v => dsimp only; rw [hfirst k]
  constructor
  · intro k h1 h2
    rw [hmain k]
    cases hlb : lookupKey b k with
    | none => simp
    | some v =>
      dsimp only
      have hb1 : (k == "dependencies") = false := beq_eq_false_iff_ne.mpr h1
      have hb2 : (k == "devDependencies") = false := beq_eq_false_iff_ne.mpr h2
      unfold mergeValue
      cases hla : lookupKey a k with
      | none => simp
      | some e =>
        dsimp only
        simp [hb1, hb2]
  · intro dk da db2 hdk hla hlb hnd
    constructor
    · rw [hmain dk, hlb]
      dsimp only
      rw [hla]
      unfold mergeValue
      dsimp only
      have hcond : ((dk == "dependencies" || dk == "devDependencies") &&
          (JValue.obj da).isObj && (JValue.obj db2).isObj) = true := by
        rcases hdk with h | h <;> subst h <;> rfl
      rw [hcond]
      simp [JValue.objFields]
    · intro j
      exact lookupKey_extendObj db2 j hnd da

/-- Claim C6, witness: `structural_merge_spec` applied to two concrete
package manifests with disjoint dependency sets — the merged result holds
the union of both. -/
theorem structural_merge_witness :
    (aW.map Prod.fst).Nodup ∧ (bW.map Prod.fst).Nodup ∧
    lookupKey (mergeTwoJsonObjects aW bW) "name" = some (.str "svc") ∧
    lookupKey (mergeTwoJsonObjects aW bW) "dependencies" =
      some (.obj (extendObj [("axios", .str "1.0")] [("zod", .str "3.0")])) ∧
    lookupKey (extendObj [("axios", .str "1.0")] [("zod", .str "3.0")]) "axios"
      = some (.str "1.0") ∧
    lookupKey (extendObj [("axios", .str "1.0")] [("zod", .str "3.0")]) "zod"
      = some (.str "3.0") :=
  ⟨by decide, by decide,
   ((structural_merge_spec aW bW (by decide) (by decide)).1 "name"
      (by decide) (by decide)).trans rfl,
   ((structural_merge_spec aW bW (by decide) (by decide)).2 "dependencies"
      [("axios", .str "1.0")] [("zod", .str "3.0")] (Or.inl rfl) rfl rfl (by decide)).1,
   (((structural_merge_spec aW bW (by decide) (by decide)).2 "dependencies"
      [("axios", .str "1.0")] [("zod", .str "3.0")] (Or.inl rfl) rfl rfl (by decide)).2
      "axios").trans rfl,
   (((structural_merge_spec aW bW (by decide) (by decide)).2 "dependencies"
      [("axios", .str "1.0")] [("zod", .str "3.0")] (Or.inl rfl) rfl rfl (by decide)).2
      "zod").trans rfl⟩

/-! ## Composition-pipeline lemmas and claims C1, C4, C5, C10 -/

/-- `resolveAll` over any key order is `filterMap` of the per-key
resolution: the resolved file for each path depends only on that path's
conflict group, never on the iteration order of the conflict map. -/
theorem resolveAll_eq_filterMap (parse : String → Option JValue)
    (ser : List (String × JValue) → String) (st : FileMergingStrategy)
    (files : List ComposedFile) :
    ∀ (order : List RelPath) (r : List ComposedFile),
      resolveAll parse ser st files order = .ok r →
      r = order.filterMap (resolveOneOpt parse ser st files) := by
  intro order
  induction order with
  | nil =>
    intro r h
    injection h with h
    rw [← h]
    rfl
  | cons p rest ih =>
    intro r h
    unfold resolveAll at h
    cases hg : files.filter (fun f => f.path == p) with
    | nil =>
      rw [hg] at h
      dsimp only at h
      rw [List.filterMap_cons]
      have hnone : resolveOneOpt parse ser st files p = none := by
        unfold resolveOneOpt
        rw [hg]
      rw [hnone]
      exact ih r h
    | cons g gs =>
      rw [hg] at h
      dsimp only at h
      cases hres : resolvePathGroup parse ser st p (g :: gs) with
      | error e => rw [hres] at h; cases h
      | ok v =>
        rw [hres] at h
        cases hrest : resolveAll parse ser st files rest with
        | error e => rw [hrest] at h; cases h
        | ok rs =>
          rw [hrest] at h
          injection h with h
          rw [← h, List.filterMap_cons]
          have hsome : resolveOneOpt parse ser st files p = some v := by
            unfold resolveOneOpt
            rw [hg]
            dsimp only
            rw [hres]
            rfl
          rw [hsome]
          rw [ih rs hrest]

/-- Inversion of a successful `compose_template` run: the manifest loaded,
validation passed, collection succeeded, conflict resolution succeeded, and
the result is assembled from those stages (with an empty
environment-variable map). -/
theorem composeTemplate_ok {parse : String → Option JValue}
    {ser : List (String × JValue) → String} {fs : FSModel} {name : String}
    {sels : List ServiceSelection} {order : List RelPath} {t : ComposedTemplate}
    (h : composeTemplate parse ser fs name sels order = .ok t) :
    ∃ cfg collected resolved,
      fs.templateConfig name = some cfg ∧
      validationError fs cfg sels = none ∧
      collectAllFiles fs name sels = .ok collected ∧
      resolveAll parse ser (strategyOf cfg.composition)
        (applyConditionalInclusion collected sels cfg.composition) order = .ok resolved ∧
      t = { baseConfig := cfg, files := resolved,
            mergedDependencies := mergeDependencies fs sels,
            environmentVariables := [],
            serviceContext := buildServiceContext fs sels } := by
  unfold composeTemplate at h
  cases hcfg : fs.templateConfig name with
  | none => rw [hcfg] at h; cases h
  | some cfg =>
    rw [hcfg] at h
    dsimp only at h
    unfold validateServiceSelections at h
    cases hval : validationError fs cfg sels with
    | some e => rw [hval] at h; cases h
    | none =>
      rw [hval] at h
      dsimp only at h
      cases hcoll : collectAllFiles fs name sels with
      | error e => rw [hcoll] at h; cases h
      | ok collected =>
        rw [hcoll] at h
        dsimp only at h
        cases hres : resolveAll parse ser (strategyOf cfg.composition)
            (applyConditionalInclusion collected sels cfg.composition) order with
        | error e => rw [hres] at h; cases h
        | ok resolved =>
          rw [hres] at h
          dsimp only at h
          injection h with h
          exact ⟨cfg, collected, resolved, rfl, hval, rfl, hres, h.symm⟩

/-- A non-template file of a successfully processed composition appears in
the output with its path and content unchanged. -/
theorem processFiles_mem (render : String → Except String String) :
    ∀ (files : List ComposedFile) (pt : List ProcessedFile),
      processFiles render files = .ok pt →
      ∀ f ∈ files, f.isTemplate = false →
        { outputPath := f.path, content := f.content,
          executable := shouldBeExecutable f.path : ProcessedFile } ∈ pt := by
  intro files
  induction files with
  | nil => intro pt h f hf; cases hf
  | cons g rest ih =>
    intro pt h f hf hnt
    unfold processFiles at h
    cases hc : (if g.isTemplate then
        match render g.content with
        | .ok c => Except.ok c
        | .error e => Except.error (EngError.processingError e)
      else .ok g.content) with
    | error e => rw [hc] at h; cases h
    | ok content =>
      rw [hc] at h
      cases hrest : processFiles render rest with
      | error e => rw [hrest] at h; cases h
      | ok r =>
        rw [hrest] at h
        injection h with h
        rcases List.mem_cons.mp hf with hfg | hfr
        · subst hfg
          rw [hnt] at hc
          simp only [if_false, Bool.false_eq_true] at hc
          injection hc with hc
          rw [← h]
          rw [← hc]
          exact List.mem_cons_self _ _
        · rw [← h]
          exact List.mem_cons_of_mem _ (ih r hrest f hfr hnt)


/-- Lookup distributes over list append, earlier bindings first. -/
theorem lookupKey_append (l1 l2 : List (String × JValue)) (k : String) :
    lookupKey (l1 ++ l2) k = (lookupKey l1 k <|> lookupKey l2 k) := by
  induction l1 with
  | nil => simp [lookupKey]
  | cons kv rest ih =>
    obtain ⟨k1, v1⟩ := kv
    by_cases h : k1 == k
    · simp [lookupKey, h]
    · simp only [Bool.not_eq_true] at h
      simp [lookupKey, h, ih]

/-- Claim C1: for a template and selection list passing selection
validation, `compose_template` is deterministic modulo its only internal
nondeterminism, the iteration order of the conflict-resolution `HashMap`:
any two successful runs on the same unchanged filesystem produce files
that are permutations of each other (hence the same SET of output paths
with the same content and provenance per path) and identical dependency
maps, environment maps, base configs and service contexts. -/
theorem compose_deterministic (parse : String → Option JValue)
    (ser : List (String × JValue) → String) (fs : FSModel) (name : String)
    (sels : List ServiceSelection) (cfg : TemplateConfig)
    (order₁ order₂ : List RelPath) (t₁ t₂ : ComposedTemplate)
    (hcfg : fs.templateConfig name = some cfg)
    (hval : validateServiceSelections fs cfg sels = .ok ())
    (horder : order₁.Perm order₂)
    (h₁ : composeTemplate parse ser fs name sels order₁ = .ok t₁)
    (h₂ : composeTemplate parse ser fs name sels order₂ = .ok t₂) :
    t₁.files.Perm t₂.files ∧ t₁.baseConfig = t₂.baseConfig ∧
    t₁.mergedDependencies = t₂.mergedDependencies ∧
    t₁.environmentVariables = t₂.environmentVariables ∧
    t₁.serviceContext = t₂.serviceContext := by
  obtain ⟨cfg₁, col₁, res₁, hc₁, hv₁, hl₁, hr₁, ht₁⟩ := composeTemplate_ok h₁
  obtain ⟨cfg₂, col₂, res₂, hc₂, hv₂, hl₂, hr₂, ht₂⟩ := composeTemplate_ok h₂
  have hcfg12 : cfg₁ = cfg₂ := by
    rw [hc₁] at hc₂
    injection hc₂
  subst hcfg12
  have hcol : col₁ = col₂ := by
    rw [hl₁] at hl₂
    injection hl₂
  subst hcol
  have he₁ := resolveAll_eq_filterMap parse ser (strategyOf cfg₁.composition)
    (applyConditionalInclusion col₁ sels cfg₁.composition) order₁ res₁ hr₁
  have he₂ := resolveAll_eq_filterMap parse ser (strategyOf cfg₁.composition)
    (applyConditionalInclusion col₁ sels cfg₁.composition) order₂ res₂ hr₂
  subst ht₁ ht₂
  refine ⟨?_, rfl, rfl, rfl, rfl⟩
  show res₁.Perm res₂
  rw [he₁, he₂]
  exact horder.filterMap _

/-- Claim C1, witness: `compose_deterministic` at a concrete one-file
template composition. -/
theorem compose_deterministic_witness :
    fsW.templateConfig "app" = some cfgW ∧
    validateServiceSelections fsW cfgW [] = .ok () ∧
    composeTemplate pNone serNone fsW "app" [] [["readme.md"]] = .ok tW ∧
    tW.files.Perm tW.files ∧ tW.baseConfig = tW.baseConfig ∧
    tW.mergedDependencies = tW.mergedDependencies ∧
    tW.environmentVariables = tW.environmentVariables ∧
    tW.serviceContext = tW.serviceContext :=
  ⟨rfl, rfl, rfl,
   (compose_deterministic pNone serNone fsW "app" [] cfgW [["readme.md"]] [["readme.md"]]
      tW tW rfl rfl (List.Perm.refl _) rfl rfl).1,
   rfl, rfl, rfl, rfl⟩


/-- Claim C4: when the manifest declares a required service definition and
the selections contain none of its category, `compose_template` fails with
a `CompositionError` naming the unmet service — and it does so for EVERY
template/service directory tree contents (`tt`, `st` universally
quantified), i.e. before any file is read from the base template or the
service directories, with no partial output. -/
theorem required_service_aborts (parse : String → Option JValue)
    (ser : List (String × JValue) → String) (fs : FSModel) (name : String)
    (sels : List ServiceSelection) (order : List RelPath)
    (tt : String → DirTree) (st : ServiceCategory → String → DirTree)
    (cfg : TemplateConfig)
    (hcfg : fs.templateConfig name = some cfg)
    (hreq : ∃ d ∈ cfg.services, d.required = true ∧ ∀ s ∈ sels, s.category ≠ d.category) :
    ∃ d ∈ cfg.services, d.required = true ∧ (∀ s ∈ sels, s.category ≠ d.category) ∧
      composeTemplate parse ser { fs with templateTree := tt, serviceTree := st }
          name sels order
        = .error (.compositionError ("Required service " ++ d.name ++ " not provided")) := by
  have hex : ∃ d ∈ cfg.services,
      (d.required && !(sels.any fun s => s.category == d.category)) = true := by
    obtain ⟨d, hd, hr, hnone⟩ := hreq
    refine ⟨d, hd, ?_⟩
    rw [Bool.and_eq_true, hr]
    refine ⟨rfl, ?_⟩
    cases hany : sels.any fun s => s.category == d.category with
    | false => rfl
    | true =>
      obtain ⟨s, hs, hbeq⟩ := List.any_eq_true.mp hany
      exact absurd (by simpa using hbeq) (hnone s hs)
  have hsome : (cfg.services.find? fun d =>
      d.required && !(sels.any fun s => s.category == d.category)).isSome = true :=
    List.find?_isSome.mpr hex
  obtain ⟨d₀, hd₀⟩ := Option.isSome_iff_exists.mp hsome
  have hp := List.find?_some hd₀
  have hmem := List.mem_of_find?_eq_some hd₀
  rw [Bool.and_eq_true] at hp
  obtain ⟨hreq₀, hnone₀⟩ := hp
  have hnosel : ∀ s ∈ sels, s.category ≠ d₀.category := by
    intro s hs hc
    rw [Bool.not_eq_true'] at hnone₀
    have : sels.any (fun s => s.category == d₀.category) = true :=
      List.any_eq_true.mpr ⟨s, hs, by simpa using hc⟩
    rw [this] at hnone₀
    cases hnone₀
  refine ⟨d₀, hmem, hreq₀, hnosel, ?_⟩
  unfold composeTemplate
  have hcfg' : ({ fs with templateTree := tt, serviceTree := st } :
      FSModel).templateConfig name = some cfg := hcfg
  rw [hcfg']
  dsimp only
  unfold validateServiceSelections validationError
  have hreqerr : requiredServiceError cfg sels =
      some (.compositionError ("Required service " ++ d₀.name ++ " not provided")) := by
    unfold requiredServiceError
    rw [hd₀]
    rfl
  rw [hreqerr]
  rfl

/-- Claim C4, witness: a template requiring category auth with no
selections aborts with the required-service error regardless of tree
contents. -/
theorem required_service_aborts_witness :
    fsC4.templateConfig "app" = some cfgC4 ∧
    (∃ d ∈ cfgC4.services, d.required = true ∧
      ∀ s ∈ ([] : List ServiceSelection), s.category ≠ d.category) ∧
    (∃ d ∈ cfgC4.services, d.required = true ∧
      (∀ s ∈ ([] : List ServiceSelection), s.category ≠ d.category) ∧
      composeTemplate pNone serNone
          { fsC4 with templateTree := fsC4.templateTree, serviceTree := fsC4.serviceTree }
          "app" [] []
        = .error (.compositionError ("Required service " ++
            ({ name := "auth", category := .auth, options := ["clerk"], required := true :
              ServiceDefinition }).name ++ " not provided"))) := by
  refine ⟨rfl, ⟨_, List.mem_cons_self _ _, rfl, fun s hs => absurd hs (List.not_mem_nil s)⟩, ?_⟩
  have := required_service_aborts pNone serNone fsC4 "app" [] []
    fsC4.templateTree fsC4.serviceTree cfgC4 rfl
    ⟨_, List.mem_cons_self _ _, rfl, fun s hs => absurd hs (List.not_mem_nil s)⟩
  obtain ⟨d, hd, hr, hn, hc⟩ := this
  have hdval : d = { name := "auth", category := .auth, options := ["clerk"], required := true :
      ServiceDefinition } := List.eq_of_mem_singleton hd
  subst hdval
  exact ⟨_, hd, hr, hn, hc⟩


/-- Claim C10: every successful `compose_template` returns an EMPTY
`environment_variables` map (`collect_environment_variables` is a stub),
so the `has_environment_variables` flag inserted by
`process_composed_template`'s shared context is always false; the declared
service environment variables instead surface in `merged_dependencies`
under its `environment_variables` key exactly when some selected service
declares one. -/
theorem env_vars_always_empty (parse : String → Option JValue)
    (ser : List (String × JValue) → String) (fs : FSModel) (name : String)
    (sels : List ServiceSelection) (order : List RelPath) (t : ComposedTemplate)
    (h : composeTemplate parse ser fs name sels order = .ok t) :
    t.environmentVariables = [] ∧
    hasEnvironmentVariablesFlag t = false ∧
    t.mergedDependencies = mergeDependencies fs sels ∧
    lookupKey t.mergedDependencies "environment_variables" =
      (if (gatherEnvVars fs sels).isEmpty then none
       else some (.arr ((gatherEnvVars fs sels).map envVarJson))) := by
  obtain ⟨cfg, col, res, hc, hv, hl, hr, ht⟩ := composeTemplate_ok h
  subst ht
  refine ⟨rfl, rfl, rfl, ?_⟩
  show lookupKey (mergeDependencies fs sels) "environment_variables" = _
  unfold mergeDependencies
  rw [lookupKey_append, lookupKey_append]
  have hA : lookupKey
      (if (gatherNpmDeps fs sels).isEmpty then []
       else [("npm", JValue.arr ((gatherNpmDeps fs sels).map npmDepJson))])
      "environment_variables" = none := by
    split
    · rfl
    · rfl
  have hB : lookupKey
      (if (gatherCargoDeps fs sels).isEmpty then []
       else [("cargo", JValue.obj ((gatherCargoDeps fs sels).map
         fun kv => (kv.1, JValue.str kv.2)))])
      "environment_variables" = none := by
    split
    · rfl
    · rfl
  rw [hA, hB]
  by_cases henv : (gatherEnvVars fs sels).isEmpty
  · rw [if_pos henv, if_pos henv]
    rfl
  · rw [if_neg henv, if_neg henv]
    rfl

/-- Claim C10, witness: a clerk auth service declaring an environment
variable still yields an empty environment map, the false flag, and the
variable reachable only under `merged_dependencies`. -/
theorem env_vars_always_empty_witness :
    composeTemplate pNone serNone fsC10 "app" [selW] [["readme.md"]] = .ok tW10 ∧
    tW10.environmentVariables = [] ∧
    hasEnvironmentVariablesFlag tW10 = false ∧
    tW10.mergedDependencies = mergeDependencies fsC10 [selW] ∧
    lookupKey tW10.mergedDependencies "environment_variables" =
      (if (gatherEnvVars fsC10 [selW]).isEmpty then none
       else some (.arr ((gatherEnvVars fsC10 [selW]).map envVarJson))) :=
  ⟨rfl,
   env_vars_always_empty pNone serNone fsC10 "app" [selW] [["readme.md"]] tW10 rfl⟩


/-- Claim C5, amended: a collected file without the `.tera` marker that
(a) passes conditional inclusion and (b) is the sole filtered occupant of
its output path appears in the composed-and-rendered output with
byte-identical content at an identical relative path (for any successful
composition and rendering run). -/
theorem static_file_roundtrip (parse : String → Option JValue)
    (ser : List (String × JValue) → String) (render : String → Except String String)
    (fs : FSModel) (name : String) (sels : List ServiceSelection) (order : List RelPath)
    (cfg : TemplateConfig) (collected : List ComposedFile) (t : ComposedTemplate)
    (pt : List ProcessedFile) (f : ComposedFile)
    (hcfg : fs.templateConfig name = some cfg)
    (hcoll : collectAllFiles fs name sels = .ok collected)
    (hmem : f ∈ collected)
    (hnt : f.isTemplate = false)
    (hkeep : evaluateFileConditions f (selectionContext sels) cfg.composition = true)
    (huniq : (applyConditionalInclusion collected sels cfg.composition).filter
        (fun g => g.path == f.path) = [f])
    (hcomp : composeTemplate parse ser fs name sels order = .ok t)
    (horder : order.Perm (dedupKeys (applyConditionalInclusion collected sels cfg.composition)))
    (hproc : processFiles render t.files = .ok pt) :
    ∃ pf ∈ pt, pf.outputPath = f.path ∧ pf.content = f.content := by
  obtain ⟨cfg', col', res, hc', hv', hl', hr', ht⟩ := composeTemplate_ok hcomp
  have hcfg12 : cfg = cfg' := by
    rw [hcfg] at hc'
    exact Option.some.inj hc'
  subst hcfg12
  have hcol12 : collected = col' := by
    rw [hcoll] at hl'
    injection hl'
  subst hcol12
  have hmemf : f ∈ applyConditionalInclusion collected sels cfg.composition :=
    List.mem_filter.mpr ⟨hmem, hkeep⟩
  have hpath : f.path ∈ order := by
    rw [horder.mem_iff]
    unfold dedupKeys
    rw [List.mem_dedup]
    exact List.mem_map_of_mem _ hmemf
  have hres_eq := resolveAll_eq_filterMap parse ser (strategyOf cfg.composition)
    (applyConditionalInclusion collected sels cfg.composition) order res hr'
  have hone : resolveOneOpt parse ser (strategyOf cfg.composition)
      (applyConditionalInclusion collected sels cfg.composition) f.path = some f := by
    unfold resolveOneOpt
    rw [huniq]
    rfl
  have hfres : f ∈ res := by
    rw [hres_eq]
    exact List.mem_filterMap.mpr ⟨f.path, hpath, hone⟩
  subst ht
  have := processFiles_mem render _ pt hproc f hfres hnt
  exact ⟨_, this, rfl, rfl⟩

/-- Claim C5, witness: the amended round-trip at a concrete static file. -/
theorem static_file_roundtrip_witness :
    fsW.templateConfig "app" = some cfgW ∧
    collectAllFiles fsW "app" [] = .ok [fileW] ∧
    fileW ∈ [fileW] ∧
    fileW.isTemplate = false ∧
    evaluateFileConditions fileW (selectionContext []) cfgW.composition = true ∧
    (applyConditionalInclusion [fileW] [] cfgW.composition).filter
      (fun g => g.path == fileW.path) = [fileW] ∧
    composeTemplate pNone serNone fsW "app" [] [["readme.md"]] = .ok tW ∧
    [["readme.md"]].Perm (dedupKeys (applyConditionalInclusion [fileW] [] cfgW.composition)) ∧
    processFiles renderId tW.files = .ok ptW ∧
    ∃ pf ∈ ptW, pf.outputPath = fileW.path ∧ pf.content = fileW.content := by
  refine ⟨rfl, rfl, List.mem_cons_self _ _, rfl, rfl, rfl, rfl, ?_, rfl, ?_⟩
  · decide
  · exact static_file_roundtrip pNone serNone renderId fsW "app" [] [["readme.md"]]
      cfgW [fileW] tW ptW fileW rfl rfl (List.mem_cons_self _ _) rfl rfl rfl rfl
      (by decide) rfl

/-- Claim C5, counterexample: `fsC5`'s base template ships the static file
`extra.txt` (collected, non-template), but an explicit conditional rule
(`has_auth`, false with no selections) drops it: the composed output is
EMPTY, so the collected file does not appear in the rendered output at
all, refuting the unconditional round-trip claim. -/
theorem conditional_drop_counterexample :
    collectAllFiles fsC5 "app" [] = .ok [fileC5] ∧
    fileC5.isTemplate = false ∧
    composeTemplate pNone serNone fsC5 "app" [] [] = .ok tC5 ∧
    tC5.files = [] ∧
    processFiles renderId tC5.files = .ok [] :=
  ⟨rfl, rfl, rfl, rfl, rfl⟩

end Anvil
